import Mathlib

/-!
# Aperture — verification of the wire codec, aggregation engine, buffer, diff and auth gate

Shallow embedding of the parts of the Aperture repository
(`src/shared/src/protocol/wire.rs`, `src/shared/src/types/{events,profile,diff}.rs`,
`src/aggregator/src/{aggregate,buffer}.rs`, `src/aggregator/src/server/grpc.rs`)
that the specification's testable properties talk about, together with proofs
or refutations of those properties.

Modelling conventions:
* Rust machine integers (`u32`, `u64`, `i32`, `i64`) are `Nat`/`Int`; well-formedness
  predicates carry the range bounds where they matter (wire roundtrips).
* A Rust `String` is represented by its UTF-8 byte sequence (`List Nat`, each < 256);
  every Rust `String` is valid UTF-8, and the wire decoder checks UTF-8 validity.
* Fallible Rust functions (`Result`) are modelled with `Option` (the error payloads
  of `anyhow::Error` are not needed by any property below).
-/

namespace Aperture

/-- A byte value; encoders only ever emit values `< 256`. -/
abbrev Byte := Nat

/-- Little-endian encoding of `n` into `k` bytes (bincode fixint layout). -/
def toLE : Nat → Nat → List Byte
  | 0, _ => []
  | k + 1, n => n % 256 :: toLE k (n / 256)

/-- Little-endian value of a byte list. -/
def fromLE : List Byte → Nat
  | [] => 0
  | b :: rest => b + 256 * fromLE rest

theorem toLE_length (k n : Nat) : (toLE k n).length = k := by
  induction k generalizing n with
  | zero => rfl
  | succ k ih => simp [toLE, ih]

theorem fromLE_toLE (k n : Nat) (h : n < 256 ^ k) : fromLE (toLE k n) = n := by
  induction k generalizing n with
  | zero => simp [toLE, fromLE]; omega
  | succ k ih =>
      simp only [toLE, fromLE]
      have h' : n / 256 < 256 ^ k := by
        have e : 256 ^ (k + 1) = 256 * 256 ^ k := by ring
        exact Nat.div_lt_of_lt_mul (e ▸ h)
      rw [ih _ h']
      omega

/-- Read `k` little-endian bytes off the front of a stream. -/
def readLE (k : Nat) (bs : List Byte) : Option (Nat × List Byte) :=
  if k ≤ bs.length then some (fromLE (bs.take k), bs.drop k) else none

theorem readLE_toLE (k n : Nat) (rest : List Byte) (h : n < 256 ^ k) :
    readLE k (toLE k n ++ rest) = some (n, rest) := by
  unfold readLE
  rw [if_pos]
  · rw [List.take_left' (toLE_length k n), List.drop_left' (toLE_length k n),
        fromLE_toLE k n h]
  · simp [toLE_length]

/-- Association-list lookup, mirroring `HashMap::get` (keys are unique in every
reachable map, and lookup finds the first matching key). -/
def alookup {κ σ : Type} [DecidableEq κ] : List (κ × σ) → κ → Option σ
  | [], _ => none
  | (k', v) :: rest, k => if k = k' then some v else alookup rest k

/-- Association-list entry update, mirroring `HashMap::entry(k).or_insert_with(d)`
followed by an in-place mutation `f` of the entry. -/
def updateAssoc {κ σ : Type} [DecidableEq κ] (d : σ) (f : σ → σ) :
    List (κ × σ) → κ → List (κ × σ)
  | [], k => [(k, f d)]
  | (k', v) :: rest, k =>
      if k = k' then (k', f v) :: rest else (k', v) :: updateAssoc d f rest k

theorem alookup_updateAssoc {κ σ : Type} [DecidableEq κ] (d : σ) (f : σ → σ)
    (l : List (κ × σ)) (k k' : κ) :
    alookup (updateAssoc d f l k) k' =
      if k' = k then some (f ((alookup l k).getD d)) else alookup l k' := by
  induction l with
  | nil =>
      by_cases h : k' = k <;> simp [updateAssoc, alookup, h]
  | cons kv rest ih =>
      obtain ⟨k₀, v₀⟩ := kv
      simp only [updateAssoc]
      by_cases hk : k = k₀
      · subst hk
        by_cases h' : k' = k <;> simp [alookup, h']
      · simp only [if_neg hk, alookup]
        by_cases h' : k' = k₀
        · subst h'
          have hne : ¬ k' = k := fun hh => hk (hh.symm.trans rfl)
          simp [hne]
        · simp [h', ih]

/-- Sum of a numeric measure over the values of an association list. -/
def sumBy {κ σ : Type} (μ : σ → Nat) (l : List (κ × σ)) : Nat :=
  (l.map fun kv => μ kv.2).sum

theorem sumBy_updateAssoc {κ σ : Type} [DecidableEq κ] (μ : σ → Nat) (d : σ) (f : σ → σ)
    (hd : μ d = 0) (hf : ∀ v, μ (f v) = μ v + 1) (l : List (κ × σ)) (k : κ) :
    sumBy μ (updateAssoc d f l k) = sumBy μ l + 1 := by
  induction l with
  | nil => simp [updateAssoc, sumBy, hf, hd]
  | cons kv rest ih =>
      obtain ⟨k₀, v₀⟩ := kv
      by_cases hk : k = k₀
      · simp [updateAssoc, hk, sumBy, hf]; omega
      · simp only [updateAssoc, if_neg hk]
        simp only [sumBy, List.map_cons, List.sum_cons] at ih ⊢
        omega

end Aperture

namespace Aperture

/-! ## Wire data model (src/shared/src/types/events.rs) -/

/-- A Rust `String`, represented by its UTF-8 byte sequence. -/
abbrev RStr := List Byte

/-- CPU profiling sample event (`CpuSample`). Field order matches the Rust
declaration order, which is the bincode wire order. -/
structure CpuSample where
  timestamp : Nat
  pid : Int
  tid : Int
  cpu_id : Nat
  user_stack : List Nat
  kernel_stack : List Nat
  comm : RStr
  user_stack_symbols : List (Option RStr)
  kernel_stack_symbols : List (Option RStr)
deriving DecidableEq, Repr

/-- Lock contention event (`LockEvent`). -/
structure LockEvent where
  timestamp : Nat
  pid : Int
  tid : Int
  lock_addr : Nat
  hold_time_ns : Nat
  wait_time_ns : Nat
  stack_trace : List Nat
  comm : RStr
  stack_symbols : List (Option RStr)
deriving DecidableEq, Repr

/-- Syscall event (`SyscallEvent`). -/
structure SyscallEvent where
  timestamp : Nat
  pid : Int
  tid : Int
  syscall_id : Nat
  duration_ns : Nat
  return_value : Int
  comm : RStr
deriving DecidableEq, Repr

/-- GPU kernel execution event (`GpuKernelEvent`). -/
structure GpuKernelEvent where
  timestamp : Nat
  pid : Int
  kernel_name : RStr
  duration_ns : Nat
  grid_size : Nat × Nat × Nat
  block_size : Nat × Nat × Nat
deriving DecidableEq, Repr

/-- Unified profiling event (`ProfileEvent`); constructor order is the bincode
enum-tag order: 0 = CpuSample, 1 = Lock, 2 = Syscall, 3 = GpuKernel. -/
inductive ProfileEvent where
  | cpuSample : CpuSample → ProfileEvent
  | lock : LockEvent → ProfileEvent
  | syscall : SyscallEvent → ProfileEvent
  | gpuKernel : GpuKernelEvent → ProfileEvent
deriving DecidableEq, Repr

/-! ## Wire protocol (src/shared/src/protocol/wire.rs) -/

/-- Protocol version (`PROTOCOL_VERSION`). -/
def PROTOCOL_VERSION : Nat := 1

/-- Wire message envelope (`Message`). -/
structure Message where
  version : Nat
  sequence : Nat
  events : List ProfileEvent
deriving DecidableEq, Repr

/-- `Message::new` sets the current protocol version. -/
def Message.new (sequence : Nat) (events : List ProfileEvent) : Message :=
  { version := PROTOCOL_VERSION, sequence := sequence, events := events }

/-- Legacy (pre-symbol-fields) CPU sample (`LegacyCpuSample`). -/
structure LegacyCpuSample where
  timestamp : Nat
  pid : Int
  tid : Int
  cpu_id : Nat
  user_stack : List Nat
  kernel_stack : List Nat
  comm : RStr
deriving DecidableEq, Repr

/-- Legacy lock event (`LegacyLockEvent`). -/
structure LegacyLockEvent where
  timestamp : Nat
  pid : Int
  tid : Int
  lock_addr : Nat
  hold_time_ns : Nat
  wait_time_ns : Nat
  stack_trace : List Nat
  comm : RStr
deriving DecidableEq, Repr

/-- Legacy event enum (`LegacyProfileEvent`); same tag order as the current enum. -/
inductive LegacyProfileEvent where
  | cpuSample : LegacyCpuSample → LegacyProfileEvent
  | lock : LegacyLockEvent → LegacyProfileEvent
  | syscall : SyscallEvent → LegacyProfileEvent
  | gpuKernel : GpuKernelEvent → LegacyProfileEvent
deriving DecidableEq, Repr

/-- `LegacyProfileEvent::into_current`: upgrade by appending empty symbol arrays. -/
def LegacyProfileEvent.into_current : LegacyProfileEvent → ProfileEvent
  | .cpuSample s => .cpuSample
      { timestamp := s.timestamp, pid := s.pid, tid := s.tid, cpu_id := s.cpu_id,
        user_stack := s.user_stack, kernel_stack := s.kernel_stack, comm := s.comm,
        user_stack_symbols := [], kernel_stack_symbols := [] }
  | .lock e => .lock
      { timestamp := e.timestamp, pid := e.pid, tid := e.tid, lock_addr := e.lock_addr,
        hold_time_ns := e.hold_time_ns, wait_time_ns := e.wait_time_ns,
        stack_trace := e.stack_trace, comm := e.comm, stack_symbols := [] }
  | .syscall e => .syscall e
  | .gpuKernel e => .gpuKernel e

/-- Legacy message envelope (`LegacyMessage`). -/
structure LegacyMessage where
  version : Nat
  sequence : Nat
  events : List LegacyProfileEvent
deriving DecidableEq, Repr

/-- `LegacyMessage::into_current`. -/
def LegacyMessage.into_current (m : LegacyMessage) : Message :=
  { version := m.version, sequence := m.sequence,
    events := m.events.map LegacyProfileEvent.into_current }

end Aperture

namespace Aperture

/-! ## UTF-8 validation

bincode decodes a Rust `String` as a length-prefixed byte sequence and rejects
bytes that are not valid UTF-8 (`str::from_utf8`). -/

/-- Is `b` a UTF-8 continuation byte (`0x80..=0xBF`)? -/
def utf8Cont (b : Byte) : Bool := 0x80 ≤ b && b ≤ 0xBF

/-- RFC 3629 UTF-8 validity of a byte sequence. -/
def utf8Valid : List Byte → Bool
  | [] => true
  | b :: rest =>
    if b ≤ 0x7F then utf8Valid rest
    else
      match rest with
      | [] => false
      | c1 :: r1 =>
        if 0xC2 ≤ b && b ≤ 0xDF then utf8Cont c1 && utf8Valid r1
        else
          match r1 with
          | [] => false
          | c2 :: r2 =>
            if b = 0xE0 then (0xA0 ≤ c1 && c1 ≤ 0xBF) && utf8Cont c2 && utf8Valid r2
            else if (0xE1 ≤ b && b ≤ 0xEC) || b = 0xEE || b = 0xEF then
              utf8Cont c1 && utf8Cont c2 && utf8Valid r2
            else if b = 0xED then (0x80 ≤ c1 && c1 ≤ 0x9F) && utf8Cont c2 && utf8Valid r2
            else
              match r2 with
              | [] => false
              | c3 :: r3 =>
                if b = 0xF0 then
                  (0x90 ≤ c1 && c1 ≤ 0xBF) && utf8Cont c2 && utf8Cont c3 && utf8Valid r3
                else if 0xF1 ≤ b && b ≤ 0xF3 then
                  utf8Cont c1 && utf8Cont c2 && utf8Cont c3 && utf8Valid r3
                else if b = 0xF4 then
                  (0x80 ≤ c1 && c1 ≤ 0x8F) && utf8Cont c2 && utf8Cont c3 && utf8Valid r3
                else false

/-! ## bincode integer encodings

`wire_bincode()` is `DefaultOptions::new().with_fixint_encoding().allow_trailing_bytes()`:
all integers fixed-width little-endian, sequence lengths `u64`, enum tags `u32`,
trailing bytes permitted.  The second/fourth decode attempts in `Message::from_bytes`
use `bincode::deserialize`, documented in `wire.rs` as the "legacy varint encoding";
they are modelled with bincode's varint scheme (single byte below 251; markers
251/252/253 introduce 2/4/8 little-endian bytes; zigzag for signed integers). -/

/-- Integer encoding selector of a bincode configuration. -/
inductive Enc where
  | fix : Enc
  | var : Enc
deriving DecidableEq, Repr

/-- Read a bincode varint-encoded unsigned integer (target width `u64`). -/
def readUVar : List Byte → Option (Nat × List Byte)
  | [] => none
  | b :: rest =>
    if b < 251 then some (b, rest)
    else if b = 251 then readLE 2 rest
    else if b = 252 then readLE 4 rest
    else if b = 253 then readLE 8 rest
    else none

/-- Read a `u64`. -/
def readU64 : Enc → List Byte → Option (Nat × List Byte)
  | .fix, bs => readLE 8 bs
  | .var, bs => readUVar bs

/-- Read a `u32` (range-checked under varint). -/
def readU32 : Enc → List Byte → Option (Nat × List Byte)
  | .fix, bs => readLE 4 bs
  | .var, bs => do
      let (n, rest) ← readUVar bs
      if n < 2 ^ 32 then some (n, rest) else none

/-- Interpret `k`-byte little-endian value `n` as a signed two's-complement integer. -/
def toSigned (k n : Nat) : Int :=
  if n < 256 ^ k / 2 then (n : Int) else (n : Int) - (256 ^ k : Nat)

/-- Undo zigzag encoding: even values are non-negative, odd values negative. -/
def unzigzag (n : Nat) : Int :=
  if n % 2 = 0 then (n / 2 : Nat) else -((n / 2 : Nat) : Int) - 1

/-- Read an `i32`. -/
def readI32 : Enc → List Byte → Option (Int × List Byte)
  | .fix, bs => do
      let (n, rest) ← readLE 4 bs
      some (toSigned 4 n, rest)
  | .var, bs => do
      let (n, rest) ← readUVar bs
      let i := unzigzag n
      if -(2 ^ 31 : Int) ≤ i ∧ i < 2 ^ 31 then some (i, rest) else none

/-- Read an `i64`. -/
def readI64 : Enc → List Byte → Option (Int × List Byte)
  | .fix, bs => do
      let (n, rest) ← readLE 8 bs
      some (toSigned 8 n, rest)
  | .var, bs => do
      let (n, rest) ← readUVar bs
      some (unzigzag n, rest)

/-- Read a sequence length (serialized as `u64`). -/
def readLen (e : Enc) (bs : List Byte) : Option (Nat × List Byte) := readU64 e bs

/-- Read `n` raw bytes. -/
def readBytes (n : Nat) (bs : List Byte) : Option (List Byte × List Byte) :=
  if n ≤ bs.length then some (bs.take n, bs.drop n) else none

/-- Read a Rust `String`: length-prefixed bytes, UTF-8 checked. -/
def readString (e : Enc) (bs : List Byte) : Option (RStr × List Byte) := do
  let (n, rest) ← readLen e bs
  let (s, rest') ← readBytes n rest
  if utf8Valid s then some (s, rest') else none

/-- Read an `Option<T>`: one tag byte, 0 = None / 1 = Some. -/
def readOption {α : Type} (rd : List Byte → Option (α × List Byte)) :
    List Byte → Option (Option α × List Byte)
  | [] => none
  | b :: rest =>
    if b = 0 then some (none, rest)
    else if b = 1 then do
      let (a, rest') ← rd rest
      some (some a, rest')
    else none

/-- Read exactly `n` elements with `rd`. -/
def readCount {α : Type} (rd : List Byte → Option (α × List Byte)) :
    Nat → List Byte → Option (List α × List Byte)
  | 0, bs => some ([], bs)
  | n + 1, bs => do
      let (a, bs1) ← rd bs
      let (as, bs2) ← readCount rd n bs1
      some (a :: as, bs2)

/-- Read a `Vec<T>`: length then elements. -/
def readVec {α : Type} (e : Enc) (rd : List Byte → Option (α × List Byte))
    (bs : List Byte) : Option (List α × List Byte) := do
  let (n, rest) ← readLen e bs
  readCount rd n rest

/-- Read a `Vec<u64>` (`StackTrace`). -/
def readStack (e : Enc) (bs : List Byte) : Option (List Nat × List Byte) :=
  readVec e (readU64 e) bs

/-- Read a `Vec<Option<String>>` (symbol array). -/
def readSymbols (e : Enc) (bs : List Byte) : Option (List (Option RStr) × List Byte) :=
  readVec e (readOption (readString e)) bs

/-- Read a `CpuSample` struct body. -/
def readCpuSample (e : Enc) (bs : List Byte) : Option (CpuSample × List Byte) := do
  let (timestamp, bs) ← readU64 e bs
  let (pid, bs) ← readI32 e bs
  let (tid, bs) ← readI32 e bs
  let (cpu_id, bs) ← readU32 e bs
  let (user_stack, bs) ← readStack e bs
  let (kernel_stack, bs) ← readStack e bs
  let (comm, bs) ← readString e bs
  let (user_stack_symbols, bs) ← readSymbols e bs
  let (kernel_stack_symbols, bs) ← readSymbols e bs
  some ({ timestamp, pid, tid, cpu_id, user_stack, kernel_stack, comm,
          user_stack_symbols, kernel_stack_symbols }, bs)

/-- Read a `LockEvent` struct body. -/
def readLockEvent (e : Enc) (bs : List Byte) : Option (LockEvent × List Byte) := do
  let (timestamp, bs) ← readU64 e bs
  let (pid, bs) ← readI32 e bs
  let (tid, bs) ← readI32 e bs
  let (lock_addr, bs) ← readU64 e bs
  let (hold_time_ns, bs) ← readU64 e bs
  let (wait_time_ns, bs) ← readU64 e bs
  let (stack_trace, bs) ← readStack e bs
  let (comm, bs) ← readString e bs
  let (stack_symbols, bs) ← readSymbols e bs
  some ({ timestamp, pid, tid, lock_addr, hold_time_ns, wait_time_ns, stack_trace,
          comm, stack_symbols }, bs)

/-- Read a `SyscallEvent` struct body. -/
def readSyscallEvent (e : Enc) (bs : List Byte) : Option (SyscallEvent × List Byte) := do
  let (timestamp, bs) ← readU64 e bs
  let (pid, bs) ← readI32 e bs
  let (tid, bs) ← readI32 e bs
  let (syscall_id, bs) ← readU32 e bs
  let (duration_ns, bs) ← readU64 e bs
  let (return_value, bs) ← readI64 e bs
  let (comm, bs) ← readString e bs
  some ({ timestamp, pid, tid, syscall_id, duration_ns, return_value, comm }, bs)

/-- Read a `(u32, u32, u32)` tuple. -/
def readU32Triple (e : Enc) (bs : List Byte) : Option ((Nat × Nat × Nat) × List Byte) := do
  let (a, bs) ← readU32 e bs
  let (b, bs) ← readU32 e bs
  let (c, bs) ← readU32 e bs
  some ((a, b, c), bs)

/-- Read a `GpuKernelEvent` struct body. -/
def readGpuKernelEvent (e : Enc) (bs : List Byte) : Option (GpuKernelEvent × List Byte) := do
  let (timestamp, bs) ← readU64 e bs
  let (pid, bs) ← readI32 e bs
  let (kernel_name, bs) ← readString e bs
  let (duration_ns, bs) ← readU64 e bs
  let (grid_size, bs) ← readU32Triple e bs
  let (block_size, bs) ← readU32Triple e bs
  some ({ timestamp, pid, kernel_name, duration_ns, grid_size, block_size }, bs)

/-- Read a `ProfileEvent`: `u32` variant tag in declaration order, then the body. -/
def readEvent (e : Enc) (bs : List Byte) : Option (ProfileEvent × List Byte) := do
  let (tag, bs) ← readU32 e bs
  match tag with
  | 0 => do let (s, bs) ← readCpuSample e bs; some (.cpuSample s, bs)
  | 1 => do let (l, bs) ← readLockEvent e bs; some (.lock l, bs)
  | 2 => do let (s, bs) ← readSyscallEvent e bs; some (.syscall s, bs)
  | 3 => do let (g, bs) ← readGpuKernelEvent e bs; some (.gpuKernel g, bs)
  | _ => none

/-- Read a `LegacyProfileEvent`. -/
def readLegacyEvent (e : Enc) (bs : List Byte) : Option (LegacyProfileEvent × List Byte) := do
  let (tag, bs) ← readU32 e bs
  match tag with
  | 0 => do
      let (timestamp, bs) ← readU64 e bs
      let (pid, bs) ← readI32 e bs
      let (tid, bs) ← readI32 e bs
      let (cpu_id, bs) ← readU32 e bs
      let (user_stack, bs) ← readStack e bs
      let (kernel_stack, bs) ← readStack e bs
      let (comm, bs) ← readString e bs
      some (.cpuSample { timestamp, pid, tid, cpu_id, user_stack, kernel_stack, comm }, bs)
  | 1 => do
      let (timestamp, bs) ← readU64 e bs
      let (pid, bs) ← readI32 e bs
      let (tid, bs) ← readI32 e bs
      let (lock_addr, bs) ← readU64 e bs
      let (hold_time_ns, bs) ← readU64 e bs
      let (wait_time_ns, bs) ← readU64 e bs
      let (stack_trace, bs) ← readStack e bs
      let (comm, bs) ← readString e bs
      some (.lock { timestamp, pid, tid, lock_addr, hold_time_ns, wait_time_ns,
                    stack_trace, comm }, bs)
  | 2 => do let (s, bs) ← readSyscallEvent e bs; some (.syscall s, bs)
  | 3 => do let (g, bs) ← readGpuKernelEvent e bs; some (.gpuKernel g, bs)
  | _ => none

/-- Deserialize a current-schema `Message` (trailing bytes permitted by the caller). -/
def readMessage (e : Enc) (bs : List Byte) : Option (Message × List Byte) := do
  let (version, bs) ← readU32 e bs
  let (sequence, bs) ← readU64 e bs
  let (events, bs) ← readVec e (readEvent e) bs
  some ({ version, sequence, events }, bs)

/-- Deserialize a `LegacyMessage`. -/
def readLegacyMessage (e : Enc) (bs : List Byte) : Option (LegacyMessage × List Byte) := do
  let (version, bs) ← readU32 e bs
  let (sequence, bs) ← readU64 e bs
  let (events, bs) ← readVec e (readLegacyEvent e) bs
  some ({ version, sequence, events }, bs)

/-! ## Fixint encoders (`wire_bincode().serialize`) -/

/-- Write a `u32`. -/
def wU32 (n : Nat) : List Byte := toLE 4 n

/-- Write a `u64`. -/
def wU64 (n : Nat) : List Byte := toLE 8 n

/-- Write an `i32` (two's complement). -/
def wI32 (i : Int) : List Byte := toLE 4 (i % (2 ^ 32)).toNat

/-- Write an `i64` (two's complement). -/
def wI64 (i : Int) : List Byte := toLE 8 (i % (2 ^ 64)).toNat

/-- Write a sequence length. -/
def wLen (n : Nat) : List Byte := wU64 n

/-- Write a Rust `String`. -/
def wString (s : RStr) : List Byte := wLen s.length ++ s

/-- Write an `Option<T>`. -/
def wOption {α : Type} (wr : α → List Byte) : Option α → List Byte
  | none => [0]
  | some a => 1 :: wr a

/-- Write a `Vec<T>`. -/
def wVec {α : Type} (wr : α → List Byte) (l : List α) : List Byte :=
  wLen l.length ++ (l.map wr).flatten

/-- Write a `ProfileEvent` (tag then body, declaration order). -/
def wEvent : ProfileEvent → List Byte
  | .cpuSample s =>
      wU32 0 ++ wU64 s.timestamp ++ wI32 s.pid ++ wI32 s.tid ++ wU32 s.cpu_id ++
      wVec wU64 s.user_stack ++ wVec wU64 s.kernel_stack ++ wString s.comm ++
      wVec (wOption wString) s.user_stack_symbols ++
      wVec (wOption wString) s.kernel_stack_symbols
  | .lock l =>
      wU32 1 ++ wU64 l.timestamp ++ wI32 l.pid ++ wI32 l.tid ++ wU64 l.lock_addr ++
      wU64 l.hold_time_ns ++ wU64 l.wait_time_ns ++ wVec wU64 l.stack_trace ++
      wString l.comm ++ wVec (wOption wString) l.stack_symbols
  | .syscall s =>
      wU32 2 ++ wU64 s.timestamp ++ wI32 s.pid ++ wI32 s.tid ++ wU32 s.syscall_id ++
      wU64 s.duration_ns ++ wI64 s.return_value ++ wString s.comm
  | .gpuKernel g =>
      wU32 3 ++ wU64 g.timestamp ++ wI32 g.pid ++ wString g.kernel_name ++
      wU64 g.duration_ns ++ wU32 g.grid_size.1 ++ wU32 g.grid_size.2.1 ++
      wU32 g.grid_size.2.2 ++ wU32 g.block_size.1 ++ wU32 g.block_size.2.1 ++
      wU32 g.block_size.2.2

/-- `Message::to_bytes`: fixint bincode serialization (it cannot fail for these types). -/
def Message.to_bytes (m : Message) : List Byte :=
  wU32 m.version ++ wU64 m.sequence ++ wVec wEvent m.events

/-- Write a `LegacyProfileEvent` (used to produce legacy-format payloads, as the
wire tests do with `wire_bincode().serialize(&legacy_msg)`). -/
def wLegacyEvent : LegacyProfileEvent → List Byte
  | .cpuSample s =>
      wU32 0 ++ wU64 s.timestamp ++ wI32 s.pid ++ wI32 s.tid ++ wU32 s.cpu_id ++
      wVec wU64 s.user_stack ++ wVec wU64 s.kernel_stack ++ wString s.comm
  | .lock l =>
      wU32 1 ++ wU64 l.timestamp ++ wI32 l.pid ++ wI32 l.tid ++ wU64 l.lock_addr ++
      wU64 l.hold_time_ns ++ wU64 l.wait_time_ns ++ wVec wU64 l.stack_trace ++
      wString l.comm
  | .syscall s =>
      wU32 2 ++ wU64 s.timestamp ++ wI32 s.pid ++ wI32 s.tid ++ wU32 s.syscall_id ++
      wU64 s.duration_ns ++ wI64 s.return_value ++ wString s.comm
  | .gpuKernel g =>
      wU32 3 ++ wU64 g.timestamp ++ wI32 g.pid ++ wString g.kernel_name ++
      wU64 g.duration_ns ++ wU32 g.grid_size.1 ++ wU32 g.grid_size.2.1 ++
      wU32 g.grid_size.2.2 ++ wU32 g.block_size.1 ++ wU32 g.block_size.2.1 ++
      wU32 g.block_size.2.2

/-- Fixint serialization of a `LegacyMessage`. -/
def LegacyMessage.to_bytes (m : LegacyMessage) : List Byte :=
  wU32 m.version ++ wU64 m.sequence ++ wVec wLegacyEvent m.events

/-! ## `Message::from_bytes` -/

/-- Accept a successful current-schema decode only when the version matches
(`if msg.version == PROTOCOL_VERSION`); otherwise fall through to the next attempt. -/
def acceptCurrent : Option (Message × List Byte) → Option Message
  | some (m, _) => if m.version = PROTOCOL_VERSION then some m else none
  | none => none

/-- Accept a successful legacy-schema decode only when the version matches,
upgrading via `into_current`. -/
def acceptLegacy : Option (LegacyMessage × List Byte) → Option Message
  | some (m, _) => if m.version = PROTOCOL_VERSION then some m.into_current else none
  | none => none

/-- `Message::from_bytes`: four decode attempts in order — current schema via
`wire_bincode()`, current schema via `bincode::deserialize`, legacy schema via
`wire_bincode()`, legacy schema via `bincode::deserialize`; a successful decode
with a version mismatch falls through; all four failing is an error (`none`).

The root functions `bincode::serialize`/`bincode::deserialize` of bincode 1.x
use the crate's backwards-compatible configuration — fixint integers, trailing
bytes allowed — i.e. the same layout as `wire_bincode()`, so attempts 2 and 4
repeat attempts 1 and 3.  (The "legacy varint encoding" wording in the
`from_bytes` doc comment does not describe the crate: with a varint second
attempt, any fixint legacy payload would already be consumed by attempt 2 —
its leading bytes `[1,0,0,0, seq…]` parse as varint version 1, sequence 0,
zero events — and the repository's `test_legacy_schema_decode` could never
reach the legacy-schema fallback it exercises.) -/
def Message.from_bytes (bs : List Byte) : Option Message :=
  (acceptCurrent (readMessage .fix bs)).orElse fun _ =>
    (acceptCurrent (readMessage .fix bs)).orElse fun _ =>
      (acceptLegacy (readLegacyMessage .fix bs)).orElse fun _ =>
        acceptLegacy (readLegacyMessage .fix bs)

end Aperture

namespace Aperture

/-! ## Profile data structures (src/shared/src/types/profile.rs) -/

/-- A single frame in a stack trace (`Frame`). -/
structure Frame where
  ip : Nat
  function : Option RStr
  file : Option RStr
  line : Option Nat
  module : Option RStr
deriving DecidableEq, Repr

/-- `Frame::new_unresolved`. -/
def Frame.new_unresolved (ip : Nat) : Frame :=
  { ip := ip, function := none, file := none, line := none, module := none }

/-- `Frame::is_symbolized`. -/
def Frame.is_symbolized (f : Frame) : Bool := f.function.isSome

/-- A complete stack trace (`Stack`). -/
structure Stack where
  frames : List Frame
deriving DecidableEq, Repr

/-- `Stack::from_ips`. -/
def Stack.from_ips (ips : List Nat) : Stack :=
  ⟨ips.map Frame.new_unresolved⟩

/-- Modelled from the spec: `Stack::from_ips_with_symbols` is called by the
aggregation engine (src/aggregator/src/aggregate.rs) but its definition is not
under src/.  Per §4.8 the engine "construct[s] a Stack with symbols", and the
`test_aggregate_with_symbols` unit test requires `frames[i].function` to be the
i-th symbol; frames whose symbol is null stay unresolved. -/
def Stack.from_ips_with_symbols (ips : List Nat) (symbols : List (Option RStr)) : Stack :=
  ⟨(List.range ips.length).map fun i =>
    { ip := ips.getD i 0, function := symbols.getD i none,
      file := none, line := none, module := none }⟩

/-- Aggregated CPU profile (`Profile`); `samples` models the
`HashMap<Stack, u64>` as an association list. -/
structure Profile where
  start_time : Nat
  end_time : Nat
  samples : List (Stack × Nat)
  total_samples : Nat
  sample_period_ns : Nat
deriving DecidableEq, Repr

/-- `Profile::new`. -/
def Profile.new (start_time end_time sample_period_ns : Nat) : Profile :=
  { start_time, end_time, samples := [], total_samples := 0, sample_period_ns }

/-- `Profile::add_sample`: `*samples.entry(stack).or_insert(0) += 1; total_samples += 1`. -/
def Profile.add_sample (p : Profile) (stack : Stack) : Profile :=
  { p with samples := updateAssoc 0 (· + 1) p.samples stack,
           total_samples := p.total_samples + 1 }

/-- `u64::MAX`, the initial `min_wait_ns` / `min_duration_ns`. -/
def U64_MAX : Nat := 2 ^ 64 - 1

/-- Lock contention statistics (`LockContentionStats`). -/
structure LockContentionStats where
  count : Nat
  total_wait_ns : Nat
  max_wait_ns : Nat
  min_wait_ns : Nat
deriving DecidableEq, Repr

/-- `LockContentionStats::default`. -/
def LockContentionStats.default : LockContentionStats :=
  { count := 0, total_wait_ns := 0, max_wait_ns := 0, min_wait_ns := U64_MAX }

/-- Lock contention profile (`LockProfile`); `contentions` models
`HashMap<(u64, Stack), LockContentionStats>`. -/
structure LockProfile where
  start_time : Nat
  end_time : Nat
  contentions : List ((Nat × Stack) × LockContentionStats)
  total_events : Nat
deriving DecidableEq, Repr

/-- `LockProfile::new`. -/
def LockProfile.new (start_time : Nat) : LockProfile :=
  { start_time, end_time := 0, contentions := [], total_events := 0 }

/-- The per-entry mutation performed by `add_contention`. -/
def LockContentionStats.record (wait_ns : Nat) (s : LockContentionStats) :
    LockContentionStats :=
  { count := s.count + 1, total_wait_ns := s.total_wait_ns + wait_ns,
    max_wait_ns := max s.max_wait_ns wait_ns, min_wait_ns := min s.min_wait_ns wait_ns }

/-- `LockProfile::add_contention`. -/
def LockProfile.add_contention (p : LockProfile) (lock_addr : Nat) (stack : Stack)
    (wait_ns : Nat) : LockProfile :=
  { p with contentions := updateAssoc LockContentionStats.default
             (LockContentionStats.record wait_ns) p.contentions (lock_addr, stack),
           total_events := p.total_events + 1 }

/-- Syscall statistics (`SyscallStats`). -/
structure SyscallStats where
  syscall_id : Nat
  name : RStr
  count : Nat
  total_duration_ns : Nat
  max_duration_ns : Nat
  min_duration_ns : Nat
  error_count : Nat
  latency_histogram : List Nat
deriving DecidableEq, Repr

/-- `SyscallStats::new`: zeroed stats with a 30-bucket histogram. -/
def SyscallStats.new (id : Nat) (name : RStr) : SyscallStats :=
  { syscall_id := id, name, count := 0, total_duration_ns := 0, max_duration_ns := 0,
    min_duration_ns := U64_MAX, error_count := 0, latency_histogram := List.replicate 30 0 }

/-- `u64::leading_zeros` for a nonzero `u64` is `63 - ⌊log2 d⌋` (64 for zero). -/
def u64_leading_zeros (d : Nat) : Nat :=
  if d = 0 then 64 else 63 - Nat.log2 d

/-- Histogram bucket computed by `add_syscall`:
`if duration_ns == 0 { 0 } else { (63 - duration_ns.leading_zeros()).min(29) }`. -/
def latencyBucket (d : Nat) : Nat :=
  if d = 0 then 0 else min (63 - u64_leading_zeros d) 29

/-- The per-entry mutation performed by `add_syscall`. -/
def SyscallStats.record (duration_ns : Nat) (return_value : Int) (s : SyscallStats) :
    SyscallStats :=
  { s with
    count := s.count + 1,
    total_duration_ns := s.total_duration_ns + duration_ns,
    max_duration_ns := max s.max_duration_ns duration_ns,
    min_duration_ns := min s.min_duration_ns duration_ns,
    error_count := s.error_count + (if return_value < 0 then 1 else 0),
    latency_histogram :=
      s.latency_histogram.set (latencyBucket duration_ns)
        (s.latency_histogram.getD (latencyBucket duration_ns) 0 + 1) }

/-- Syscall profile (`SyscallProfile`); `syscalls` models `HashMap<u32, SyscallStats>`. -/
structure SyscallProfile where
  start_time : Nat
  end_time : Nat
  syscalls : List (Nat × SyscallStats)
  total_events : Nat
deriving DecidableEq, Repr

/-- `SyscallProfile::new`. -/
def SyscallProfile.new (start_time : Nat) : SyscallProfile :=
  { start_time, end_time := 0, syscalls := [], total_events := 0 }

/-- `SyscallProfile::add_syscall`. -/
def SyscallProfile.add_syscall (p : SyscallProfile) (id : Nat) (name : RStr)
    (duration_ns : Nat) (return_value : Int) : SyscallProfile :=
  { p with syscalls := updateAssoc (SyscallStats.new id name)
             (SyscallStats.record duration_ns return_value) p.syscalls id,
           total_events := p.total_events + 1 }

end Aperture

namespace Aperture

/-! ## Base64 (the `base64` crate's `general_purpose::STANDARD` engine:
canonical padding required, nonzero trailing bits rejected). -/

/-- Value of one base64 alphabet character. -/
def b64Val (c : Char) : Option Nat :=
  if 'A' ≤ c ∧ c ≤ 'Z' then some (c.toNat - 65)
  else if 'a' ≤ c ∧ c ≤ 'z' then some (c.toNat - 97 + 26)
  else if '0' ≤ c ∧ c ≤ '9' then some (c.toNat - 48 + 52)
  else if c = '+' then some 62
  else if c = '/' then some 63
  else none

/-- Character for a 6-bit value (used to build payloads). -/
def b64Char (v : Nat) : Char :=
  if v < 26 then Char.ofNat (65 + v)
  else if v < 52 then Char.ofNat (97 + (v - 26))
  else if v < 62 then Char.ofNat (48 + (v - 52))
  else if v = 62 then '+'
  else '/'

/-- Standard base64 decoding of a 4-character-block stream with canonical padding. -/
def b64Decode : List Char → Option (List Byte)
  | [] => some []
  | c1 :: c2 :: c3 :: c4 :: rest =>
      match b64Val c1, b64Val c2 with
      | some v1, some v2 =>
        if c3 = '=' then
          if c4 = '=' ∧ rest = [] ∧ v2 % 16 = 0 then some [v1 * 4 + v2 / 16] else none
        else
          match b64Val c3 with
          | some v3 =>
            if c4 = '=' then
              if rest = [] ∧ v3 % 4 = 0 then
                some [v1 * 4 + v2 / 16, v2 % 16 * 16 + v3 / 4]
              else none
            else
              match b64Val c4 with
              | some v4 => do
                  let tail ← b64Decode rest
                  some ([v1 * 4 + v2 / 16, v2 % 16 * 16 + v3 / 4, v3 % 4 * 64 + v4] ++ tail)
              | none => none
          | none => none
      | _, _ => none
  | _ => none

/-- Standard base64 encoding (used to construct concrete payloads). -/
def b64Encode : List Byte → List Char
  | [] => []
  | [b1] => [b64Char (b1 / 4), b64Char (b1 % 4 * 16), '=', '=']
  | [b1, b2] => [b64Char (b1 / 4), b64Char (b1 % 4 * 16 + b2 / 16), b64Char (b2 % 16 * 4), '=']
  | b1 :: b2 :: b3 :: rest =>
      b64Char (b1 / 4) :: b64Char (b1 % 4 * 16 + b2 / 16) ::
      b64Char (b2 % 16 * 4 + b3 / 64) :: b64Char (b3 % 64) :: b64Encode rest

/-! ## Aggregation engine (src/aggregator/src/aggregate.rs) -/

/-- Modelled from the spec: `syscall_name` lives in
`src/shared/src/utils/syscalls.rs`, which is not under src/; §4.8 specifies a
"static id→name table".  A fixed table with a default arm; only its determinism
(same id, same name) matters to the properties below. -/
def syscall_name (id : Nat) : RStr :=
  match id with
  | 0 => [114, 101, 97, 100]            -- "read"
  | 1 => [119, 114, 105, 116, 101]      -- "write"
  | 2 => [111, 112, 101, 110]           -- "open"
  | 3 => [99, 108, 111, 115, 101]       -- "close"
  | _ => [117, 110, 107, 110, 111, 119, 110]  -- "unknown"

/-- Result of aggregating batches (`AggregateResult`), also the loop state of
`aggregate_batches` (its four mutable locals). -/
structure AggregateResult where
  cpu : Option Profile
  lock : Option LockProfile
  syscall : Option SyscallProfile
  total_events : Nat
deriving DecidableEq, Repr

/-- The combined `user_stack ++ kernel_stack` of a CPU sample. -/
def combinedIps (s : CpuSample) : List Nat := s.user_stack ++ s.kernel_stack

/-- The combined symbol array of a CPU sample: user symbols padded with nulls to
the user stack's length, then kernel symbols, then nulls to the combined length. -/
def combinedSyms (s : CpuSample) : List (Option RStr) :=
  let syms1 := s.user_stack_symbols ++
    List.replicate (s.user_stack.length - s.user_stack_symbols.length) none
  let syms2 := syms1 ++ s.kernel_stack_symbols
  syms2 ++ List.replicate ((combinedIps s).length - syms2.length) none

/-- The `Stack` built for a CPU sample: with symbols when any is non-null, else
from raw instruction pointers. -/
def cpuStack (s : CpuSample) : Stack :=
  if (combinedSyms s).any (fun o => o.isSome) then
    Stack.from_ips_with_symbols (combinedIps s) (combinedSyms s)
  else Stack.from_ips (combinedIps s)

/-- `cpu.get_or_insert_with(|| Profile::new(ts, ts, 0))` followed by the
start/end extension. -/
def cpuBase (c : Option Profile) (ts : Nat) : Profile :=
  let p0 := match c with
    | some p => p
    | none => Profile.new ts ts 0
  { p0 with
    start_time := if ts < p0.start_time then ts else p0.start_time,
    end_time := if ts > p0.end_time then ts else p0.end_time }

/-- CPU branch of the event loop: extend the time range, combine user and kernel
stacks with null-padded parallel symbol arrays, and count the sample unless the
combined stack is empty. -/
def cpuUpd (c : Option Profile) (s : CpuSample) : Profile :=
  if (combinedIps s).isEmpty then cpuBase c s.timestamp
  else (cpuBase c s.timestamp).add_sample (cpuStack s)

/-- The `Stack` built for a lock event. -/
def lockStack (ev : LockEvent) : Stack :=
  if ev.stack_symbols.any (fun o => o.isSome) then
    Stack.from_ips_with_symbols ev.stack_trace ev.stack_symbols
  else Stack.from_ips ev.stack_trace

/-- `lock.get_or_insert_with(|| LockProfile::new(ts))` with time extension. -/
def lockBase (c : Option LockProfile) (ts : Nat) : LockProfile :=
  let p0 := match c with
    | some p => p
    | none => LockProfile.new ts
  { p0 with
    start_time := if ts < p0.start_time then ts else p0.start_time,
    end_time := if ts > p0.end_time then ts else p0.end_time }

/-- Lock branch of the event loop. -/
def lockUpd (c : Option LockProfile) (ev : LockEvent) : LockProfile :=
  if ev.stack_trace.isEmpty then lockBase c ev.timestamp
  else (lockBase c ev.timestamp).add_contention ev.lock_addr (lockStack ev) ev.wait_time_ns

/-- `syscall.get_or_insert_with(|| SyscallProfile::new(ts))` with time extension. -/
def sysBase (c : Option SyscallProfile) (ts : Nat) : SyscallProfile :=
  let p0 := match c with
    | some p => p
    | none => SyscallProfile.new ts
  { p0 with
    start_time := if ts < p0.start_time then ts else p0.start_time,
    end_time := if ts > p0.end_time then ts else p0.end_time }

/-- Syscall branch of the event loop. -/
def sysUpd (c : Option SyscallProfile) (ev : SyscallEvent) : SyscallProfile :=
  (sysBase c ev.timestamp).add_syscall ev.syscall_id (syscall_name ev.syscall_id)
    ev.duration_ns ev.return_value

/-- One iteration of the `for event in msg.events` loop of `aggregate_batches`:
`total_events += 1`, then route the event by variant (GPU events are discarded). -/
def stepEvent (st : AggregateResult) (e : ProfileEvent) : AggregateResult :=
  match e with
  | .cpuSample s =>
      { st with cpu := some (cpuUpd st.cpu s), total_events := st.total_events + 1 }
  | .lock ev =>
      { st with lock := some (lockUpd st.lock ev), total_events := st.total_events + 1 }
  | .syscall ev =>
      { st with syscall := some (sysUpd st.syscall ev), total_events := st.total_events + 1 }
  | .gpuKernel _ =>
      { st with total_events := st.total_events + 1 }

/-- Base64-decode then wire-decode one payload (the two fallible steps of the
payload loop). -/
def decodePayload (p : List Char) : Option Message :=
  (b64Decode p).bind Message.from_bytes

/-- The payload loop of `aggregate_batches`: each payload must base64-decode and
wire-decode (`?` propagates the first failure), then its events are folded in. -/
def aggLoop : AggregateResult → List (List Char) → Option AggregateResult
  | st, [] => some st
  | st, p :: rest => do
      let msg ← decodePayload p
      aggLoop (msg.events.foldl stepEvent st) rest

/-- `aggregate_batches`: note that in src/aggregator/src/aggregate.rs a payload
that fails base64 or wire decoding makes the whole call return an error — there
is no `skipped_batches` counter in this version of the function, although its
callers (grpc.rs, api.rs, export.rs) expect one. -/
def aggregate_batches (payloads : List (List Char)) : Option AggregateResult :=
  aggLoop { cpu := none, lock := none, syscall := none, total_events := 0 } payloads

/-- `filter_by_type`. -/
def filter_by_type (result : AggregateResult) (event_type : List Char) : AggregateResult :=
  if event_type = ['c', 'p', 'u'] then { result with lock := none, syscall := none }
  else if event_type = ['l', 'o', 'c', 'k'] then { result with cpu := none, syscall := none }
  else if event_type = ['s', 'y', 's', 'c', 'a', 'l', 'l'] then
    { result with cpu := none, lock := none }
  else result

end Aperture

namespace Aperture

/-! ## In-memory ring buffer (src/aggregator/src/buffer.rs) -/

/-- A single batch as stored in the buffer (`StoredBatch`). -/
structure StoredBatch where
  agent_id : List Char
  sequence : Nat
  event_count : Nat
  received_at_ns : Int
  payload : List Byte
deriving DecidableEq, Repr

/-- The batch built by `InMemoryBuffer::push`: a payload that fails to decode is
stored anyway with `event_count` 0.  `received_at_ns` (a `SystemTime` reading) is
passed in as an argument. -/
def mkStoredBatch (agent_id : List Char) (sequence : Nat) (received_at_ns : Int)
    (payload : List Byte) : StoredBatch :=
  { agent_id, sequence,
    event_count := match Message.from_bytes payload with
      | some m => m.events.length
      | none => 0,
    received_at_ns, payload }

/-- The `while batches.len() > self.max_batches { batches.pop_front() }` loop. -/
def dropOldest (max_batches : Nat) (l : List StoredBatch) : List StoredBatch :=
  if l.length > max_batches then dropOldest max_batches l.tail else l
termination_by l.length
decreasing_by
  cases l with
  | nil => simp at *
  | cons a t => simp

/-- `InMemoryBuffer::push` acting on the buffer contents (front = oldest):
append the batch, then drop from the front while over capacity. -/
def bufferPush (max_batches : Nat) (buf : List StoredBatch) (agent_id : List Char)
    (sequence : Nat) (received_at_ns : Int) (payload : List Byte) : List StoredBatch :=
  dropOldest max_batches (buf ++ [mkStoredBatch agent_id sequence received_at_ns payload])

/-! ## gRPC auth check (src/aggregator/src/server/grpc.rs, `check_auth`) -/

/-- The literal `"Bearer "`. -/
def bearerLit : List Char := ['B', 'e', 'a', 'r', 'e', 'r', ' ']

/-- `str::strip_prefix("Bearer ")`. -/
def stripBearer (v : List Char) : Option (List Char) :=
  if bearerLit.isPrefixOf v then some (v.drop bearerLit.length) else none

/-- Outcome of `check_auth`: `Ok(())` or `Status::unauthenticated(msg)`. -/
inductive AuthResult where
  | ok : AuthResult
  | unauthenticated : List Char → AuthResult
deriving DecidableEq, Repr

/-- `AggregatorService::check_auth`.  The `authorization` metadata value is
modelled as an already-converted string (`val.to_str()` failures — non-ASCII
header bytes — also produce `Unauthenticated`, and the claims below quantify
over string-valued metadata). -/
def check_auth (auth_token : Option (List Char)) (authorization : Option (List Char)) :
    AuthResult :=
  match auth_token with
  | none => .ok
  | some expected =>
    match authorization with
    | some val =>
      match stripBearer val with
      | some token =>
          if token = expected then .ok
          else .unauthenticated ['i', 'n', 'v', 'a', 'l', 'i', 'd']
      | none => .unauthenticated ['n', 'o', ' ', 'b', 'e', 'a', 'r', 'e', 'r']
    | none => .unauthenticated ['m', 'i', 's', 's', 'i', 'n', 'g']

/-! ## Diff engine (src/shared/src/types/diff.rs) -/

/-- `u64 as i64`: two's-complement reinterpretation. -/
def u64AsI64 (n : Nat) : Int :=
  if n < 2 ^ 63 then (n : Int) else (n : Int) - 2 ^ 64

/-- Per-stack CPU diff entry (`StackDiff`); `delta_pct` is an `f64` in the source
and is not modelled (no claim mentions it). -/
structure StackDiff where
  stack : Stack
  baseline_count : Nat
  comparison_count : Nat
  delta : Int
deriving DecidableEq, Repr

/-- CPU profile diff (`CpuDiff`). -/
structure CpuDiff where
  baseline_total : Nat
  comparison_total : Nat
  «stacks» : List StackDiff
deriving DecidableEq, Repr

/-- Union of the key sets of two association lists (the `HashSet` collect;
iteration order of a `HashSet` is unspecified, membership is what matters). -/
def keyUnion {κ σ : Type} [DecidableEq κ] (a b : List (κ × σ)) : List κ :=
  (a.map Prod.fst ++ b.map Prod.fst).dedup

/-- `diff_cpu`: union of stack keys, per-key counts and delta
(`c as i64 - b as i64`), sorted by `|delta|` descending. -/
def diff_cpu (baseline comparison : Profile) : CpuDiff :=
  let entries := (keyUnion baseline.samples comparison.samples).map fun stack =>
    let b := (alookup baseline.samples stack).getD 0
    let c := (alookup comparison.samples stack).getD 0
    { stack := stack, baseline_count := b, comparison_count := c,
      delta := u64AsI64 c - u64AsI64 b : StackDiff }
  { baseline_total := baseline.total_samples,
    comparison_total := comparison.total_samples,
    «stacks» := entries.mergeSort fun x y => y.delta.natAbs ≤ x.delta.natAbs }

/-- Per-syscall diff entry (`SyscallStatsDiff`); the `f64` average fields are not
modelled (no claim mentions them). -/
structure SyscallStatsDiff where
  syscall_id : Nat
  name : RStr
  baseline_count : Nat
  comparison_count : Nat
  delta_count : Int
deriving DecidableEq, Repr

/-- Syscall profile diff (`SyscallDiff`). -/
structure SyscallDiff where
  baseline_total : Nat
  comparison_total : Nat
  syscalls : List SyscallStatsDiff
deriving DecidableEq, Repr

/-- `diff_syscall`. -/
def diff_syscall (baseline comparison : SyscallProfile) : SyscallDiff :=
  let entries := (keyUnion baseline.syscalls comparison.syscalls).map fun id =>
    let b := alookup baseline.syscalls id
    let c := alookup comparison.syscalls id
    let b_count := (b.map fun s => s.count).getD 0
    let c_count := (c.map fun s => s.count).getD 0
    { syscall_id := id,
      name := ((b.map fun s => s.name).orElse fun _ => c.map fun s => s.name).getD [],
      baseline_count := b_count, comparison_count := c_count,
      delta_count := u64AsI64 c_count - u64AsI64 b_count : SyscallStatsDiff }
  { baseline_total := baseline.total_events,
    comparison_total := comparison.total_events,
    syscalls := entries.mergeSort fun x y => y.delta_count.natAbs ≤ x.delta_count.natAbs }

/-- Per-key lock diff entry (`LockContentionDiff`). -/
structure LockContentionDiff where
  lock_addr : Nat
  stack : Stack
  baseline_count : Nat
  comparison_count : Nat
  delta_wait_ns : Int
deriving DecidableEq, Repr

/-- Lock profile diff (`LockDiff`). -/
structure LockDiff where
  baseline_total : Nat
  comparison_total : Nat
  contentions : List LockContentionDiff
deriving DecidableEq, Repr

/-- `diff_lock`. -/
def diff_lock (baseline comparison : LockProfile) : LockDiff :=
  let entries := (keyUnion baseline.contentions comparison.contentions).map fun key =>
    let b := alookup baseline.contentions key
    let c := alookup comparison.contentions key
    let b_wait := (b.map fun s => s.total_wait_ns).getD 0
    let c_wait := (c.map fun s => s.total_wait_ns).getD 0
    { lock_addr := key.1, stack := key.2,
      baseline_count := (b.map fun s => s.count).getD 0,
      comparison_count := (c.map fun s => s.count).getD 0,
      delta_wait_ns := u64AsI64 c_wait - u64AsI64 b_wait : LockContentionDiff }
  { baseline_total := baseline.total_events,
    comparison_total := comparison.total_events,
    contentions := entries.mergeSort fun x y => y.delta_wait_ns.natAbs ≤ x.delta_wait_ns.natAbs }

end Aperture

namespace Aperture

/-! ## Helper lemmas -/

/-- A successful `alookup` returns a value stored in the list. -/
theorem alookup_mem {κ σ : Type} [DecidableEq κ] {l : List (κ × σ)} {k : κ} {v : σ}
    (h : alookup l k = some v) : ∃ k', (k', v) ∈ l := by
  induction l with
  | nil => simp [alookup] at h
  | cons kv rest ih =>
      obtain ⟨k₀, v₀⟩ := kv
      by_cases hk : k = k₀
      · simp [alookup, hk] at h
        exact ⟨k₀, by simp [h]⟩
      · simp [alookup, hk] at h
        obtain ⟨k', hk'⟩ := ih h
        exact ⟨k', by simp [hk']⟩

/-- The bucket computed by `add_syscall` equals the specified
`min(29, ⌊log2 d⌋)` for `d > 1` and `0` for `d ≤ 1`. -/
theorem latencyBucket_eq (d : Nat) :
    latencyBucket d = if d ≤ 1 then 0 else min 29 (Nat.log2 d) := by
  unfold latencyBucket u64_leading_zeros
  rcases Nat.lt_or_ge d 2 with h | h
  · interval_cases d <;> simp [Nat.log2]
  · have hd0 : d ≠ 0 := by omega
    have hd1 : ¬ d ≤ 1 := by omega
    simp only [hd0, if_neg, if_false, hd1]
    omega

end Aperture

namespace Aperture

/-! ## Claim C2 — zero-length payload -/

/-- C2 (counterexample): the claim "Message::from_bytes applied to a zero-length
byte payload succeeds and returns a Message whose events list is empty" is false:
on the empty payload every decode attempt runs out of bytes reading the `u32`
version field, so `from_bytes` returns `none` — it does not return any message,
let alone one with an empty events list. -/
theorem c2_zero_length_payload_cex : Message.from_bytes [] = none := by rfl

/-- C2 (amended): `Message::from_bytes` on a zero-length payload returns an
error (all four decode attempts fail for lack of bytes); equivalently, the
decode never succeeds on the empty payload. -/
theorem c2_zero_length_payload_errors : (Message.from_bytes []).isSome = false := by rfl

/-! ## Claim C1 — skip-and-count -/

/-- A valid one-event payload: base64 of the fixint encoding of a one-syscall
message at the current protocol version. -/
def c1ValidPayload : List Char :=
  b64Encode (Message.new 7 [.syscall
    { timestamp := 5, pid := 3, tid := 4, syscall_id := 0, duration_ns := 100,
      return_value := 0, comm := [116, 101, 115, 116] }]).to_bytes

/-- An undecodable payload: base64 of twenty `0xFF` bytes (valid base64, but the
bytes decode under neither the current nor the legacy schema). -/
def c1BadPayload : List Char := b64Encode (List.replicate 20 255)

/-- C1 (code bug): `aggregate_batches` on a list with one valid and one
undecodable payload (k = 1) returns an error instead of succeeding with
`skipped_batches == 1` — the first failing payload aborts the whole aggregation
(`?` on both decode steps), and this version of `AggregateResult` has no
`skipped_batches` field at all, although every caller of `aggregate_batches`
in the repository reads one.  Aggregating only the valid payload succeeds. -/
theorem c1_aggregate_error_propagation :
    aggregate_batches [c1ValidPayload, c1BadPayload] = none ∧
    (aggregate_batches [c1ValidPayload]).map (fun r => r.total_events) = some 1 := by
  constructor <;> rfl

end Aperture

namespace Aperture

/-! ## Claim C6 — latency histogram bucket -/

/-- The histogram that `add_syscall` starts from for syscall `id`: the entry's
current histogram, or the fresh 30-bucket histogram of `SyscallStats::new`. -/
def oldHist (p : SyscallProfile) (id : Nat) : List Nat :=
  match alookup p.syscalls id with
  | some s => s.latency_histogram
  | none => List.replicate 30 0

/-- C6: every `add_syscall` call increments exactly one latency-histogram bucket
of the recorded syscall's stats — the result histogram is the previous one with
the bucket at index `min(29, ⌊log2(duration_ns)⌋)` (for `duration_ns > 1`, index
`0` for `duration_ns ≤ 1`) replaced by its successor, all indices in range. -/
theorem c6_histogram_bucket (p : SyscallProfile) (id : Nat) (name : RStr)
    (d : Nat) (rv : Int)
    (hlen : ∀ kv ∈ p.syscalls, (kv.2 : SyscallStats).latency_histogram.length = 30) :
    ∃ s : SyscallStats,
      alookup (p.add_syscall id name d rv).syscalls id = some s ∧
      s.latency_histogram =
        (oldHist p id).set (if d ≤ 1 then 0 else min 29 (Nat.log2 d))
          ((oldHist p id).getD (if d ≤ 1 then 0 else min 29 (Nat.log2 d)) 0 + 1) ∧
      (if d ≤ 1 then 0 else min 29 (Nat.log2 d)) < 30 ∧
      (oldHist p id).length = 30 := by
  have hb : (if d ≤ 1 then 0 else min 29 (Nat.log2 d)) < 30 := by
    by_cases h : d ≤ 1 <;> simp [h]
  have hold : (oldHist p id).length = 30 := by
    unfold oldHist
    cases hl : alookup p.syscalls id with
    | none => simp
    | some s =>
        obtain ⟨k', hk'⟩ := alookup_mem hl
        exact hlen (k', s) hk'
  refine ⟨SyscallStats.record d rv ((alookup p.syscalls id).getD (SyscallStats.new id name)),
          ?_, ?_, hb, hold⟩
  · unfold SyscallProfile.add_syscall
    simp [alookup_updateAssoc]
  · simp only [SyscallStats.record, latencyBucket_eq]
    unfold oldHist
    cases hl : alookup p.syscalls id with
    | none => simp [SyscallStats.new]
    | some s => simp

/-- C6 witness: a concrete `add_syscall` on an empty profile with duration 100ns
lands in bucket 6 = min(29, ⌊log2 100⌋). -/
theorem c6_histogram_bucket_witness :
    ∃ s : SyscallStats,
      alookup ((SyscallProfile.new 0).add_syscall 0 [] 100 0).syscalls 0 = some s ∧
      s.latency_histogram =
        (oldHist (SyscallProfile.new 0) 0).set (if 100 ≤ 1 then 0 else min 29 (Nat.log2 100))
          ((oldHist (SyscallProfile.new 0) 0).getD
            (if 100 ≤ 1 then 0 else min 29 (Nat.log2 100)) 0 + 1) ∧
      (if (100:Nat) ≤ 1 then 0 else min 29 (Nat.log2 100)) < 30 ∧
      (oldHist (SyscallProfile.new 0) 0).length = 30 :=
  c6_histogram_bucket (SyscallProfile.new 0) 0 [] 100 0 (by simp [SyscallProfile.new])

end Aperture

namespace Aperture

/-! ## Claim C9 — auth gate -/

/-- Splitting off the `"Bearer "` literal succeeds with the configured token
exactly on the exact header value. -/
theorem stripBearer_eq_some_iff (v expected : List Char) :
    (stripBearer v = some expected) ↔ v = bearerLit ++ expected := by
  unfold stripBearer
  constructor
  · intro h
    by_cases hp : bearerLit.isPrefixOf v
    · rw [if_pos hp] at h
      obtain ⟨t, ht⟩ := List.isPrefixOf_iff_prefix.mp hp
      subst ht
      have hd : (bearerLit ++ t).drop bearerLit.length = t := List.drop_left _ _
      simp only [Option.some.injEq] at h
      rw [hd] at h
      rw [h]
    · rw [if_neg hp] at h
      exact absurd h (by simp)
  · intro h
    subst h
    have hp : bearerLit.isPrefixOf (bearerLit ++ expected) :=
      List.isPrefixOf_iff_prefix.mpr (List.prefix_append _ _)
    rw [if_pos hp, List.drop_left]

/-- C9: with an auth token configured, `check_auth` accepts exactly the requests
whose authorization metadata is literally `"Bearer " ++ token`; a request with
absent metadata, a missing `"Bearer "` prefix, or a different token gets
`Unauthenticated`. -/
theorem c9_auth_gate (expected : List Char) (hdr : Option (List Char)) :
    (check_auth (some expected) hdr = .ok ↔ hdr = some (bearerLit ++ expected)) ∧
    (hdr ≠ some (bearerLit ++ expected) →
      ∃ msg, check_auth (some expected) hdr = .unauthenticated msg) := by
  cases hdr with
  | none => exact ⟨by simp [check_auth], fun _ => ⟨_, rfl⟩⟩
  | some v =>
      cases hs : stripBearer v with
      | none =>
          have hv : ¬ v = bearerLit ++ expected := by
            intro h
            have hb := (stripBearer_eq_some_iff v expected).mpr h
            rw [hs] at hb
            exact absurd hb (by simp)
          refine ⟨?_, fun _ => ⟨['n', 'o', ' ', 'b', 'e', 'a', 'r', 'e', 'r'], ?_⟩⟩
          · simp [check_auth, hs, hv]
          · simp [check_auth, hs]
      | some token =>
          by_cases ht : token = expected
          · have hv : v = bearerLit ++ expected :=
              (stripBearer_eq_some_iff v expected).mp (by rw [hs, ht])
            have hok : check_auth (some expected) (some v) = .ok := by
              simp [check_auth, hs, ht]
            exact ⟨iff_of_true hok (congrArg some hv),
                   fun hne => absurd (congrArg some hv) hne⟩
          · have hv : ¬ v = bearerLit ++ expected := by
              intro h
              have hb := (stripBearer_eq_some_iff v expected).mpr h
              rw [hs] at hb
              simp only [Option.some.injEq] at hb
              exact ht hb
            refine ⟨?_, fun _ => ⟨['i', 'n', 'v', 'a', 'l', 'i', 'd'], ?_⟩⟩
            · simp [check_auth, hs, ht, hv]
            · simp [check_auth, hs, ht]

/-- C9 witness: the exact bearer header passes, a missing header and a wrong
token are rejected with `Unauthenticated`, at the concrete token `"s"`. -/
theorem c9_auth_gate_witness :
    check_auth (some ['s']) (some (bearerLit ++ ['s'])) = .ok ∧
    (∃ msg, check_auth (some ['s']) none = .unauthenticated msg) ∧
    (∃ msg, check_auth (some ['s']) (some (bearerLit ++ ['t'])) = .unauthenticated msg) :=
  ⟨(c9_auth_gate ['s'] (some (bearerLit ++ ['s']))).1.mpr rfl,
   (c9_auth_gate ['s'] none).2 (by simp),
   (c9_auth_gate ['s'] (some (bearerLit ++ ['t']))).2 (by simp [bearerLit])⟩

end Aperture

namespace Aperture

/-! ## Claim C10 — totals match per-key sums -/

/-- Predicate preservation along a left fold. -/
theorem foldl_inv {α σ : Type} (step : σ → α → σ) (P : σ → Prop)
    (hstep : ∀ s a, P s → P (step s a)) :
    ∀ (l : List α) (s : σ), P s → P (l.foldl step s) := by
  intro l
  induction l with
  | nil => intro s hs; exact hs
  | cons a t ih => intro s hs; exact ih (step s a) (hstep s a hs)

/-- C10: for every profile reachable from `new` by a sequence of recording
calls, the running total equals the sum of the per-key counts:
`total_samples = Σ samples` for `Profile::add_sample`,
`total_events = Σ count` over contentions for `LockProfile::add_contention`, and
`total_events = Σ count` over syscalls for `SyscallProfile::add_syscall`. -/
theorem c10_totals_invariant :
    (∀ (st et sp : Nat) (l : List Stack),
      (l.foldl Profile.add_sample (Profile.new st et sp)).total_samples =
        sumBy (fun n => n) (l.foldl Profile.add_sample (Profile.new st et sp)).samples) ∧
    (∀ (st : Nat) (ops : List (Nat × Stack × Nat)),
      (ops.foldl (fun p q => p.add_contention q.1 q.2.1 q.2.2)
          (LockProfile.new st)).total_events =
        sumBy (fun s => s.count)
          (ops.foldl (fun p q => p.add_contention q.1 q.2.1 q.2.2)
            (LockProfile.new st)).contentions) ∧
    (∀ (st : Nat) (ops : List (Nat × RStr × Nat × Int)),
      (ops.foldl (fun p q => p.add_syscall q.1 q.2.1 q.2.2.1 q.2.2.2)
          (SyscallProfile.new st)).total_events =
        sumBy (fun s => s.count)
          (ops.foldl (fun p q => p.add_syscall q.1 q.2.1 q.2.2.1 q.2.2.2)
            (SyscallProfile.new st)).syscalls) := by
  refine ⟨fun st et sp l => ?_, fun st ops => ?_, fun st ops => ?_⟩
  · exact foldl_inv Profile.add_sample
      (fun p => p.total_samples = sumBy (fun n => n) p.samples)
      (fun p s hp => by
        simp [Profile.add_sample,
          sumBy_updateAssoc (fun n => n) 0 (· + 1) rfl (fun v => rfl), hp])
      l (Profile.new st et sp) (by simp [Profile.new, sumBy])
  · exact foldl_inv (fun p q => p.add_contention q.1 q.2.1 q.2.2)
      (fun p => p.total_events = sumBy (fun s => s.count) p.contentions)
      (fun p q hp => by
        simp [LockProfile.add_contention,
          sumBy_updateAssoc (fun s => s.count) LockContentionStats.default
            (LockContentionStats.record q.2.2) rfl (fun v => rfl), hp])
      ops (LockProfile.new st) (by simp [LockProfile.new, sumBy])
  · exact foldl_inv (fun p q => p.add_syscall q.1 q.2.1 q.2.2.1 q.2.2.2)
      (fun p => p.total_events = sumBy (fun s => s.count) p.syscalls)
      (fun p q hp => by
        simp [SyscallProfile.add_syscall,
          sumBy_updateAssoc (fun s => s.count) (SyscallStats.new q.1 q.2.1)
            (SyscallStats.record q.2.2.1 q.2.2.2) rfl (fun v => rfl), hp])
      ops (SyscallProfile.new st) (by simp [SyscallProfile.new, sumBy])

end Aperture

namespace Aperture

/-! ## Claim C8 — ring buffer drop-oldest bound -/

/-- The drop-front loop keeps exactly the newest `max_batches` entries. -/
theorem dropOldest_eq (K : Nat) (l : List StoredBatch) :
    dropOldest K l = l.drop (l.length - K) := by
  induction l with
  | nil => rw [dropOldest]; simp
  | cons a t ih =>
      rw [dropOldest]
      by_cases h : (a :: t).length > K
      · rw [if_pos h]
        simp only [List.tail_cons]
        rw [ih]
        have hk : (a :: t).length - K = (t.length - K) + 1 := by
          simp only [List.length_cons] at h ⊢
          omega
        rw [hk, List.drop_succ_cons]
      · rw [if_neg h]
        have h0 : (a :: t).length - K = 0 := by
          simp only [List.length_cons] at h ⊢
          omega
        rw [h0, List.drop_zero]

/-- One push-tuple: `(agent_id, sequence, received_at_ns, payload)`. -/
abbrev PushArgs := List Char × Nat × Int × List Byte

/-- Apply `InMemoryBuffer::push` for one push-tuple. -/
def applyPush (K : Nat) (buf : List StoredBatch) (q : PushArgs) : List StoredBatch :=
  bufferPush K buf q.1 q.2.1 q.2.2.1 q.2.2.2

/-- The batch stored for one push-tuple. -/
def storedOf (q : PushArgs) : StoredBatch :=
  mkStoredBatch q.1 q.2.1 q.2.2.1 q.2.2.2

/-- Starting from a buffer within capacity, the contents after a sequence of
pushes is the suffix of all batches that fits. -/
theorem foldl_applyPush (K : Nat) (pushes : List PushArgs) :
    ∀ buf : List StoredBatch, buf.length ≤ K →
      pushes.foldl (applyPush K) buf =
        (buf ++ pushes.map storedOf).drop (buf.length + pushes.length - K) := by
  induction pushes with
  | nil =>
      intro buf hbuf
      simp only [List.foldl_nil, List.map_nil, List.append_nil]
      rw [show buf.length + ([] : List PushArgs).length - K = 0 by simp; omega,
          List.drop_zero]
  | cons q rest ih =>
      intro buf hbuf
      simp only [List.foldl_cons]
      have hstep : applyPush K buf q = (buf ++ [storedOf q]).drop (buf.length + 1 - K) := by
        unfold applyPush bufferPush storedOf
        rw [dropOldest_eq]
        simp
      have hlen' : (applyPush K buf q).length ≤ K := by
        rw [hstep]
        simp
        omega
      rw [ih _ hlen', hstep]
      rw [← List.drop_append_of_le_length (by simp), List.drop_drop]
      simp only [List.length_drop, List.length_append, List.length_cons, List.length_nil,
                 List.map_cons, List.append_assoc, List.singleton_append, List.length_map]
      congr 1
      omega

/-- C8: after `N` pushes into a buffer with capacity `K`, the buffer holds
exactly `min N K` batches, namely the batches of the last `min N K` pushes in
order — the earliest `N - K` pushes (when `N > K`) have been dropped. -/
theorem c8_ring_buffer_bound (K : Nat) (pushes : List PushArgs) :
    pushes.foldl (applyPush K) [] =
      (pushes.map storedOf).drop (pushes.length - K) ∧
    (pushes.foldl (applyPush K) []).length = min pushes.length K := by
  have h := foldl_applyPush K pushes [] (by simp)
  simp only [List.nil_append, List.length_nil, Nat.zero_add] at h
  refine ⟨h, ?_⟩
  rw [h]
  simp
  omega

end Aperture

namespace Aperture

/-! ## Well-formedness: the range constraints guaranteed by the Rust types -/

/-- A well-formed Rust string: valid UTF-8, length within `usize`. -/
def wfStr (s : RStr) : Bool := utf8Valid s && decide (s.length < 2 ^ 64)

/-- A well-formed optional symbol string. -/
def wfOptStr : Option RStr → Bool
  | none => true
  | some s => wfStr s

/-- A well-formed `StackTrace` (`Vec<u64>`). -/
def wfStack (l : List Nat) : Bool :=
  decide (l.length < 2 ^ 64) && l.all fun ip => decide (ip < 2 ^ 64)

/-- A well-formed symbol array (`Vec<Option<String>>`). -/
def wfSymbols (l : List (Option RStr)) : Bool :=
  decide (l.length < 2 ^ 64) && l.all wfOptStr

/-- Is `i` in `i32` range? -/
def wfI32 (i : Int) : Bool := decide (-(2 ^ 31) ≤ i) && decide (i < 2 ^ 31)

/-- Is `i` in `i64` range? -/
def wfI64 (i : Int) : Bool := decide (-(2 ^ 63) ≤ i) && decide (i < 2 ^ 63)

/-- Well-formedness of a `CpuSample` (all fields within their Rust types). -/
def CpuSample.wf (s : CpuSample) : Bool :=
  decide (s.timestamp < 2 ^ 64) && wfI32 s.pid && wfI32 s.tid &&
  decide (s.cpu_id < 2 ^ 32) && wfStack s.user_stack && wfStack s.kernel_stack &&
  wfStr s.comm && wfSymbols s.user_stack_symbols && wfSymbols s.kernel_stack_symbols

/-- Well-formedness of a `LockEvent`. -/
def LockEvent.wf (l : LockEvent) : Bool :=
  decide (l.timestamp < 2 ^ 64) && wfI32 l.pid && wfI32 l.tid &&
  decide (l.lock_addr < 2 ^ 64) && decide (l.hold_time_ns < 2 ^ 64) &&
  decide (l.wait_time_ns < 2 ^ 64) && wfStack l.stack_trace && wfStr l.comm &&
  wfSymbols l.stack_symbols

/-- Well-formedness of a `SyscallEvent`. -/
def SyscallEvent.wf (s : SyscallEvent) : Bool :=
  decide (s.timestamp < 2 ^ 64) && wfI32 s.pid && wfI32 s.tid &&
  decide (s.syscall_id < 2 ^ 32) && decide (s.duration_ns < 2 ^ 64) &&
  wfI64 s.return_value && wfStr s.comm

/-- Well-formedness of a `GpuKernelEvent`. -/
def GpuKernelEvent.wf (g : GpuKernelEvent) : Bool :=
  decide (g.timestamp < 2 ^ 64) && wfI32 g.pid && wfStr g.kernel_name &&
  decide (g.duration_ns < 2 ^ 64) &&
  decide (g.grid_size.1 < 2 ^ 32) && decide (g.grid_size.2.1 < 2 ^ 32) &&
  decide (g.grid_size.2.2 < 2 ^ 32) &&
  decide (g.block_size.1 < 2 ^ 32) && decide (g.block_size.2.1 < 2 ^ 32) &&
  decide (g.block_size.2.2 < 2 ^ 32)

/-- Well-formedness of a `ProfileEvent`. -/
def ProfileEvent.wf : ProfileEvent → Bool
  | .cpuSample s => s.wf
  | .lock l => l.wf
  | .syscall s => s.wf
  | .gpuKernel g => g.wf

/-- Well-formedness of a `Message`. -/
def Message.wf (m : Message) : Bool :=
  decide (m.version < 2 ^ 32) && decide (m.sequence < 2 ^ 64) &&
  decide (m.events.length < 2 ^ 64) && m.events.all ProfileEvent.wf

/-- Well-formedness of a `LegacyCpuSample`. -/
def LegacyCpuSample.wf (s : LegacyCpuSample) : Bool :=
  decide (s.timestamp < 2 ^ 64) && wfI32 s.pid && wfI32 s.tid &&
  decide (s.cpu_id < 2 ^ 32) && wfStack s.user_stack && wfStack s.kernel_stack &&
  wfStr s.comm

/-- Well-formedness of a `LegacyLockEvent`. -/
def LegacyLockEvent.wf (l : LegacyLockEvent) : Bool :=
  decide (l.timestamp < 2 ^ 64) && wfI32 l.pid && wfI32 l.tid &&
  decide (l.lock_addr < 2 ^ 64) && decide (l.hold_time_ns < 2 ^ 64) &&
  decide (l.wait_time_ns < 2 ^ 64) && wfStack l.stack_trace && wfStr l.comm

/-- Well-formedness of a `LegacyProfileEvent`. -/
def LegacyProfileEvent.wf : LegacyProfileEvent → Bool
  | .cpuSample s => s.wf
  | .lock l => l.wf
  | .syscall s => s.wf
  | .gpuKernel g => g.wf

/-- Well-formedness of a `LegacyMessage`. -/
def LegacyMessage.wf (m : LegacyMessage) : Bool :=
  decide (m.version < 2 ^ 32) && decide (m.sequence < 2 ^ 64) &&
  decide (m.events.length < 2 ^ 64) && m.events.all LegacyProfileEvent.wf

/-! ## Fixint decode/encode roundtrip, component by component -/

theorem readU64_w (n : Nat) (r : List Byte) (h : n < 2 ^ 64) :
    readU64 .fix (wU64 n ++ r) = some (n, r) := by
  unfold readU64 wU64
  exact readLE_toLE 8 n r (by norm_num at h ⊢; omega)

theorem readU32_w (n : Nat) (r : List Byte) (h : n < 2 ^ 32) :
    readU32 .fix (wU32 n ++ r) = some (n, r) := by
  unfold readU32 wU32
  exact readLE_toLE 4 n r (by norm_num at h ⊢; omega)

theorem readI32_w (i : Int) (r : List Byte) (h : wfI32 i = true) :
    readI32 .fix (wI32 i ++ r) = some (i, r) := by
  simp only [wfI32, Bool.and_eq_true, decide_eq_true_eq] at h
  simp only [readI32, wI32]
  rw [readLE_toLE 4 _ r (by norm_num; omega)]
  simp only [Option.bind_eq_bind, Option.some_bind]
  unfold toSigned
  norm_num
  split <;> omega

theorem readI64_w (i : Int) (r : List Byte) (h : wfI64 i = true) :
    readI64 .fix (wI64 i ++ r) = some (i, r) := by
  simp only [wfI64, Bool.and_eq_true, decide_eq_true_eq] at h
  simp only [readI64, wI64]
  rw [readLE_toLE 8 _ r (by norm_num; omega)]
  simp only [Option.bind_eq_bind, Option.some_bind]
  unfold toSigned
  norm_num
  split <;> omega

theorem readString_w (s : RStr) (r : List Byte) (h : wfStr s = true) :
    readString .fix (wString s ++ r) = some (s, r) := by
  simp only [wfStr, Bool.and_eq_true, decide_eq_true_eq] at h
  unfold readString wString wLen readLen
  simp only [List.append_assoc]
  rw [readU64_w s.length (s ++ r) h.2]
  simp only [Option.bind_eq_bind, Option.some_bind]
  unfold readBytes
  rw [if_pos (by simp), List.take_left' rfl, List.drop_left' rfl]
  simp [h.1]

theorem readOption_w {α : Type} (rd : List Byte → Option (α × List Byte))
    (wr : α → List Byte) (o : Option α) (r : List Byte)
    (h : ∀ a, o = some a → ∀ r', rd (wr a ++ r') = some (a, r')) :
    readOption rd (wOption wr o ++ r) = some (o, r) := by
  cases o with
  | none => simp [wOption, readOption]
  | some a =>
      simp only [wOption, List.cons_append, readOption]
      norm_num
      rw [h a rfl r]
      rfl

theorem readCount_w {α : Type} (rd : List Byte → Option (α × List Byte))
    (wr : α → List Byte) (l : List α) (r : List Byte)
    (h : ∀ a ∈ l, ∀ r', rd (wr a ++ r') = some (a, r')) :
    readCount rd l.length ((l.map wr).flatten ++ r) = some (l, r) := by
  induction l with
  | nil => simp [readCount]
  | cons a t ih =>
      simp only [List.map_cons, List.flatten_cons, List.length_cons, List.append_assoc]
      rw [show t.length + 1 = t.length + 1 from rfl]
      simp only [readCount]
      rw [h a (List.mem_cons_self a t) _]
      simp only [Option.bind_eq_bind, Option.some_bind]
      rw [ih fun a ha r' => h a (List.mem_cons_of_mem _ ha) r']
      rfl

theorem readVec_w {α : Type} (rd : List Byte → Option (α × List Byte))
    (wr : α → List Byte) (l : List α) (r : List Byte) (hlen : l.length < 2 ^ 64)
    (h : ∀ a ∈ l, ∀ r', rd (wr a ++ r') = some (a, r')) :
    readVec .fix rd (wVec wr l ++ r) = some (l, r) := by
  unfold readVec wVec wLen readLen
  simp only [List.append_assoc]
  rw [readU64_w l.length _ hlen]
  simp only [Option.bind_eq_bind, Option.some_bind]
  exact readCount_w rd wr l r h

theorem readStack_w (l : List Nat) (r : List Byte) (h : wfStack l = true) :
    readStack .fix (wVec wU64 l ++ r) = some (l, r) := by
  simp only [wfStack, Bool.and_eq_true, decide_eq_true_eq, List.all_eq_true] at h
  exact readVec_w _ _ l r h.1 fun a ha r' => readU64_w a r' (by exact_mod_cast h.2 a ha)

theorem readSymbols_w (l : List (Option RStr)) (r : List Byte) (h : wfSymbols l = true) :
    readSymbols .fix (wVec (wOption wString) l ++ r) = some (l, r) := by
  simp only [wfSymbols, Bool.and_eq_true, decide_eq_true_eq, List.all_eq_true] at h
  refine readVec_w _ _ l r h.1 fun o ho r' => ?_
  refine readOption_w _ _ o r' fun s hs r'' => ?_
  refine readString_w s r'' ?_
  have := h.2 o ho
  rw [hs] at this
  exact this

end Aperture

namespace Aperture

set_option maxHeartbeats 1600000 in
theorem readEvent_w (ev : ProfileEvent) (r : List Byte) (h : ev.wf = true) :
    readEvent .fix (wEvent ev ++ r) = some (ev, r) := by
  cases ev with
  | cpuSample s =>
      simp only [ProfileEvent.wf, CpuSample.wf, Bool.and_eq_true, decide_eq_true_eq] at h
      obtain ⟨⟨⟨⟨⟨⟨⟨⟨h1, h2⟩, h3⟩, h4⟩, h5⟩, h6⟩, h7⟩, h8⟩, h9⟩ := h
      simp only [wEvent, List.append_assoc, readEvent]
      rw [readU32_w 0 _ (by norm_num)]
      simp only [Option.bind_eq_bind, Option.some_bind, readCpuSample]
      rw [readU64_w _ _ h1]
      simp only [Option.bind_eq_bind, Option.some_bind]
      rw [readI32_w _ _ h2]
      simp only [Option.bind_eq_bind, Option.some_bind]
      rw [readI32_w _ _ h3]
      simp only [Option.bind_eq_bind, Option.some_bind]
      rw [readU32_w _ _ h4]
      simp only [Option.bind_eq_bind, Option.some_bind]
      rw [readStack_w _ _ h5]
      simp only [Option.bind_eq_bind, Option.some_bind]
      rw [readStack_w _ _ h6]
      simp only [Option.bind_eq_bind, Option.some_bind]
      rw [readString_w _ _ h7]
      simp only [Option.bind_eq_bind, Option.some_bind]
      rw [readSymbols_w _ _ h8]
      simp only [Option.bind_eq_bind, Option.some_bind]
      rw [readSymbols_w _ _ h9]
      simp only [Option.bind_eq_bind, Option.some_bind]
  | lock l =>
      simp only [ProfileEvent.wf, LockEvent.wf, Bool.and_eq_true, decide_eq_true_eq] at h
      obtain ⟨⟨⟨⟨⟨⟨⟨⟨h1, h2⟩, h3⟩, h4⟩, h5⟩, h6⟩, h7⟩, h8⟩, h9⟩ := h
      simp only [wEvent, List.append_assoc, readEvent, readLockEvent,
        Option.bind_eq_bind, Option.some_bind,
        readU32_w 1 _ (by norm_num : (1:Nat) < 2 ^ 32),
        readU64_w _ _ h1, readI32_w _ _ h2, readI32_w _ _ h3, readU64_w _ _ h4,
        readU64_w _ _ h5, readU64_w _ _ h6, readStack_w _ _ h7, readString_w _ _ h8,
        readSymbols_w _ _ h9]
  | syscall s =>
      simp only [ProfileEvent.wf, SyscallEvent.wf, Bool.and_eq_true, decide_eq_true_eq] at h
      obtain ⟨⟨⟨⟨⟨⟨h1, h2⟩, h3⟩, h4⟩, h5⟩, h6⟩, h7⟩ := h
      simp only [wEvent, List.append_assoc, readEvent, readSyscallEvent,
        Option.bind_eq_bind, Option.some_bind,
        readU32_w 2 _ (by norm_num : (2:Nat) < 2 ^ 32),
        readU64_w _ _ h1, readI32_w _ _ h2, readI32_w _ _ h3, readU32_w _ _ h4,
        readU64_w _ _ h5, readI64_w _ _ h6, readString_w _ _ h7]
  | gpuKernel g =>
      simp only [ProfileEvent.wf, GpuKernelEvent.wf, Bool.and_eq_true, decide_eq_true_eq] at h
      obtain ⟨⟨⟨⟨⟨⟨⟨⟨⟨h1, h2⟩, h3⟩, h4⟩, h5⟩, h6⟩, h7⟩, h8⟩, h9⟩, h10⟩ := h
      simp only [wEvent, List.append_assoc, readEvent, readGpuKernelEvent, readU32Triple,
        Option.bind_eq_bind, Option.some_bind,
        readU32_w 3 _ (by norm_num : (3:Nat) < 2 ^ 32),
        readU64_w _ _ h1, readI32_w _ _ h2, readString_w _ _ h3, readU64_w _ _ h4,
        readU32_w _ _ h5, readU32_w _ _ h6, readU32_w _ _ h7, readU32_w _ _ h8,
        readU32_w _ _ h9, readU32_w _ _ h10]

theorem readMessage_w (m : Message) (r : List Byte) (h : m.wf = true) :
    readMessage .fix (m.to_bytes ++ r) = some (m, r) := by
  simp only [Message.wf, Bool.and_eq_true, decide_eq_true_eq, List.all_eq_true] at h
  obtain ⟨⟨⟨h1, h2⟩, h3⟩, h4⟩ := h
  simp only [Message.to_bytes, List.append_assoc, readMessage]
  rw [readU32_w _ _ h1]
  simp only [Option.bind_eq_bind, Option.some_bind]
  rw [readU64_w _ _ h2]
  simp only [Option.bind_eq_bind, Option.some_bind]
  rw [readVec_w (readEvent .fix) wEvent m.events r h3
      fun e he r' => readEvent_w e r' (h4 e he)]
  simp only [Option.bind_eq_bind, Option.some_bind]

end Aperture

namespace Aperture

/-! ## Claim C3 — wire roundtrip -/

/-- C3: for every well-typed `Message` at the current protocol version,
`from_bytes (to_bytes m)` succeeds and returns `m` itself — version, sequence
and all events (symbol arrays included) — via the first decode attempt. -/
theorem c3_wire_roundtrip (m : Message) (h : m.wf = true)
    (hv : m.version = PROTOCOL_VERSION) :
    Message.from_bytes m.to_bytes = some m := by
  have h1 : readMessage .fix m.to_bytes = some (m, []) := by
    have hh := readMessage_w m [] h
    simpa using hh
  unfold Message.from_bytes
  rw [h1]
  simp [acceptCurrent, hv, Option.orElse]

/-- A concrete message exercising every event variant and the symbol arrays. -/
def c3msg : Message := Message.new 42
  [.cpuSample { timestamp := 1000, pid := 1, tid := 2, cpu_id := 0, user_stack := [256, 512],
                kernel_stack := [2 ^ 63], comm := [115, 104],
                user_stack_symbols := [some [109, 97, 105, 110], none],
                kernel_stack_symbols := [] },
   .lock { timestamp := 2000, pid := 7, tid := 7, lock_addr := 43981, hold_time_ns := 0,
           wait_time_ns := 300, stack_trace := [12288], comm := [108],
           stack_symbols := [some []] },
   .syscall { timestamp := 3000, pid := -5, tid := 1, syscall_id := 0, duration_ns := 100,
              return_value := -1, comm := [] },
   .gpuKernel { timestamp := 4000, pid := 9, kernel_name := [107], duration_ns := 50,
                grid_size := (1, 2, 3), block_size := (4, 5, 6) }]

set_option maxRecDepth 100000 in
/-- C3 witness: the hypotheses hold and the roundtrip returns the message at a
concrete input. -/
theorem c3_wire_roundtrip_witness :
    c3msg.wf = true ∧ c3msg.version = PROTOCOL_VERSION ∧
      Message.from_bytes c3msg.to_bytes = some c3msg :=
  ⟨by decide, by decide, c3_wire_roundtrip c3msg (by decide) (by decide)⟩

end Aperture

namespace Aperture

/-! ## Claim C4 — legacy payload compatibility -/

set_option maxHeartbeats 1600000 in
theorem readLegacyEvent_w (ev : LegacyProfileEvent) (r : List Byte) (h : ev.wf = true) :
    readLegacyEvent .fix (wLegacyEvent ev ++ r) = some (ev, r) := by
  cases ev with
  | cpuSample s =>
      simp only [LegacyProfileEvent.wf, LegacyCpuSample.wf, Bool.and_eq_true,
        decide_eq_true_eq] at h
      obtain ⟨⟨⟨⟨⟨⟨h1, h2⟩, h3⟩, h4⟩, h5⟩, h6⟩, h7⟩ := h
      simp only [wLegacyEvent, List.append_assoc, readLegacyEvent,
        Option.bind_eq_bind, Option.some_bind,
        readU32_w 0 _ (by norm_num : (0:Nat) < 2 ^ 32),
        readU64_w _ _ h1, readI32_w _ _ h2, readI32_w _ _ h3, readU32_w _ _ h4,
        readStack_w _ _ h5, readStack_w _ _ h6, readString_w _ _ h7]
  | lock l =>
      simp only [LegacyProfileEvent.wf, LegacyLockEvent.wf, Bool.and_eq_true,
        decide_eq_true_eq] at h
      obtain ⟨⟨⟨⟨⟨⟨⟨h1, h2⟩, h3⟩, h4⟩, h5⟩, h6⟩, h7⟩, h8⟩ := h
      simp only [wLegacyEvent, List.append_assoc, readLegacyEvent,
        Option.bind_eq_bind, Option.some_bind,
        readU32_w 1 _ (by norm_num : (1:Nat) < 2 ^ 32),
        readU64_w _ _ h1, readI32_w _ _ h2, readI32_w _ _ h3, readU64_w _ _ h4,
        readU64_w _ _ h5, readU64_w _ _ h6, readStack_w _ _ h7, readString_w _ _ h8]
  | syscall s =>
      simp only [LegacyProfileEvent.wf, SyscallEvent.wf, Bool.and_eq_true,
        decide_eq_true_eq] at h
      obtain ⟨⟨⟨⟨⟨⟨h1, h2⟩, h3⟩, h4⟩, h5⟩, h6⟩, h7⟩ := h
      simp only [wLegacyEvent, List.append_assoc, readLegacyEvent, readSyscallEvent,
        Option.bind_eq_bind, Option.some_bind,
        readU32_w 2 _ (by norm_num : (2:Nat) < 2 ^ 32),
        readU64_w _ _ h1, readI32_w _ _ h2, readI32_w _ _ h3, readU32_w _ _ h4,
        readU64_w _ _ h5, readI64_w _ _ h6, readString_w _ _ h7]
  | gpuKernel g =>
      simp only [LegacyProfileEvent.wf, GpuKernelEvent.wf, Bool.and_eq_true,
        decide_eq_true_eq] at h
      obtain ⟨⟨⟨⟨⟨⟨⟨⟨⟨h1, h2⟩, h3⟩, h4⟩, h5⟩, h6⟩, h7⟩, h8⟩, h9⟩, h10⟩ := h
      simp only [wLegacyEvent, List.append_assoc, readLegacyEvent, readGpuKernelEvent,
        readU32Triple, Option.bind_eq_bind, Option.some_bind,
        readU32_w 3 _ (by norm_num : (3:Nat) < 2 ^ 32),
        readU64_w _ _ h1, readI32_w _ _ h2, readString_w _ _ h3, readU64_w _ _ h4,
        readU32_w _ _ h5, readU32_w _ _ h6, readU32_w _ _ h7, readU32_w _ _ h8,
        readU32_w _ _ h9, readU32_w _ _ h10]

theorem readLegacyMessage_w (m : LegacyMessage) (r : List Byte) (h : m.wf = true) :
    readLegacyMessage .fix (m.to_bytes ++ r) = some (m, r) := by
  simp only [LegacyMessage.wf, Bool.and_eq_true, decide_eq_true_eq, List.all_eq_true] at h
  obtain ⟨⟨⟨h1, h2⟩, h3⟩, h4⟩ := h
  simp only [LegacyMessage.to_bytes, List.append_assoc, readLegacyMessage]
  rw [readU32_w _ _ h1]
  simp only [Option.bind_eq_bind, Option.some_bind]
  rw [readU64_w _ _ h2]
  simp only [Option.bind_eq_bind, Option.some_bind]
  rw [readVec_w (readLegacyEvent .fix) wLegacyEvent m.events r h3
      fun e he r' => readLegacyEvent_w e r' (h4 e he)]
  simp only [Option.bind_eq_bind, Option.some_bind]

/-- Do all events of a message carry empty symbol arrays? -/
def Message.symbolsEmpty (m : Message) : Bool :=
  m.events.all fun e => match e with
    | .cpuSample s => s.user_stack_symbols.isEmpty && s.kernel_stack_symbols.isEmpty
    | .lock l => l.stack_symbols.isEmpty
    | .syscall _ => true
    | .gpuKernel _ => true

/-- A well-formed legacy message whose fixint encoding *also* parses under the
current schema: the second event's bytes are consumed as the symbol arrays and
the trailing fields of the first event. -/
def c4LegacyMsg : LegacyMessage :=
  { version := 1, sequence := 0, events := [
      .cpuSample { timestamp := 0, pid := 0, tid := 0, cpu_id := 0, user_stack := [],
                   kernel_stack := [], comm := [] },
      .lock { timestamp := 2 ^ 32, pid := 0, tid := 0, lock_addr := 0, hold_time_ns := 0,
              wait_time_ns := 0, stack_trace := [2 ^ 40, 0],
              comm := List.replicate 21 0 }] }

/-- What `from_bytes` actually returns on that payload (computed by the first,
current-schema decode attempt). -/
def c4Decoded : Message :=
  (Message.from_bytes c4LegacyMsg.to_bytes).getD (Message.new 0 [])

set_option maxRecDepth 100000 in
/-- C4 (counterexample): the claim fails as stated.  Encoding the well-formed
legacy-schema message `c4LegacyMsg` (version = PROTOCOL_VERSION) and decoding
gives a message whose first event has `user_stack_symbols = [Some("")]` — a
nonempty symbol array — because the payload already parses under the current
schema and `from_bytes` never reaches the legacy fallback. -/
theorem c4_legacy_decode_cex :
    c4LegacyMsg.wf = true ∧
    Message.from_bytes c4LegacyMsg.to_bytes = some c4Decoded ∧
    c4Decoded.symbolsEmpty = false := by
  refine ⟨by decide, by decide, by decide⟩

/-- C4 (amended): for every well-formed legacy-schema message at the current
protocol version, `from_bytes` on its encoding succeeds; and whenever the
current-schema decode attempt does not accept the payload, the result is the
upgraded legacy message, all of whose events have empty symbol arrays. -/
theorem c4_legacy_decode_amended (lm : LegacyMessage) (h : lm.wf = true)
    (hv : lm.version = PROTOCOL_VERSION) :
    (∃ m, Message.from_bytes lm.to_bytes = some m) ∧
    (acceptCurrent (readMessage .fix lm.to_bytes) = none →
      Message.from_bytes lm.to_bytes = some lm.into_current ∧
        lm.into_current.symbolsEmpty = true) := by
  have hleg : readLegacyMessage .fix lm.to_bytes = some (lm, []) := by
    have hh := readLegacyMessage_w lm [] h
    simpa using hh
  have hacc : acceptLegacy (readLegacyMessage .fix lm.to_bytes) = some lm.into_current := by
    rw [hleg]
    simp [acceptLegacy, hv]
  have hempty : lm.into_current.symbolsEmpty = true := by
    simp only [LegacyMessage.into_current, Message.symbolsEmpty, List.all_eq_true,
      List.mem_map]
    rintro e ⟨le, _, rfl⟩
    cases le <;> simp [LegacyProfileEvent.into_current]
  constructor
  · unfold Message.from_bytes
    cases hc : acceptCurrent (readMessage .fix lm.to_bytes) with
    | some m => exact ⟨m, by simp [Option.orElse, hc]⟩
    | none => exact ⟨lm.into_current, by simp [Option.orElse, hc, hacc]⟩
  · intro hc
    refine ⟨?_, hempty⟩
    unfold Message.from_bytes
    simp [Option.orElse, hc, hacc]

/-- The legacy message of the repository's own `test_legacy_schema_decode`. -/
def c4WitnessMsg : LegacyMessage :=
  { version := 1, sequence := 99, events := [
      .cpuSample { timestamp := 5000, pid := 10, tid := 11, cpu_id := 0,
                   user_stack := [4096, 8192], kernel_stack := [4294901760],
                   comm := [111, 108, 100] },
      .lock { timestamp := 6000, pid := 10, tid := 11, lock_addr := 43981,
              hold_time_ns := 0, wait_time_ns := 300, stack_trace := [12288],
              comm := [111, 108, 100] }] }

set_option maxRecDepth 100000 in
/-- C4 witness: on a concrete legacy payload that the current schema rejects,
decoding succeeds and yields the upgraded message with empty symbol arrays. -/
theorem c4_legacy_decode_amended_witness :
    c4WitnessMsg.wf = true ∧ c4WitnessMsg.version = PROTOCOL_VERSION ∧
    acceptCurrent (readMessage .fix c4WitnessMsg.to_bytes) = none ∧
    (Message.from_bytes c4WitnessMsg.to_bytes = some c4WitnessMsg.into_current ∧
      c4WitnessMsg.into_current.symbolsEmpty = true) :=
  ⟨by decide, by decide, by decide,
   (c4_legacy_decode_amended c4WitnessMsg (by decide) (by decide)).2 (by decide)⟩

end Aperture

namespace Aperture

/-! ## Claim C5 — aggregation is invariant under payload permutation

The per-kind profiles are compared extensionally: equal time range and totals,
and, for every key, equal stored statistics (`HashMap` iteration order is
unspecified, so this lookup-wise equality is what "equal profiles" means). -/

/-- Extensional equality of CPU profiles. -/
def ProfileEquiv (p q : Profile) : Prop :=
  p.start_time = q.start_time ∧ p.end_time = q.end_time ∧
  p.total_samples = q.total_samples ∧ p.sample_period_ns = q.sample_period_ns ∧
  ∀ s, alookup p.samples s = alookup q.samples s

/-- Extensional equality of lock profiles. -/
def LockEquiv (p q : LockProfile) : Prop :=
  p.start_time = q.start_time ∧ p.end_time = q.end_time ∧
  p.total_events = q.total_events ∧
  ∀ k, alookup p.contentions k = alookup q.contentions k

/-- Extensional equality of syscall profiles (whole per-id stats, histograms
included). -/
def SysEquiv (p q : SyscallProfile) : Prop :=
  p.start_time = q.start_time ∧ p.end_time = q.end_time ∧
  p.total_events = q.total_events ∧
  ∀ i, alookup p.syscalls i = alookup q.syscalls i

/-- Lift a relation to `Option`: both absent, or both present and related. -/
def OptEquiv {α : Type} (R : α → α → Prop) : Option α → Option α → Prop
  | none, none => True
  | some a, some b => R a b
  | _, _ => False

/-- Extensional equality of aggregation results. -/
def AggEquiv (r r' : AggregateResult) : Prop :=
  r.total_events = r'.total_events ∧
  OptEquiv ProfileEquiv r.cpu r'.cpu ∧
  OptEquiv LockEquiv r.lock r'.lock ∧
  OptEquiv SysEquiv r.syscall r'.syscall

theorem profileEquiv_refl (p : Profile) : ProfileEquiv p p := ⟨rfl, rfl, rfl, rfl, fun _ => rfl⟩

theorem lockEquiv_refl (p : LockProfile) : LockEquiv p p := ⟨rfl, rfl, rfl, fun _ => rfl⟩

theorem sysEquiv_refl (p : SyscallProfile) : SysEquiv p p := ⟨rfl, rfl, rfl, fun _ => rfl⟩

theorem optEquiv_refl {α : Type} {R : α → α → Prop} (hR : ∀ a, R a a) :
    ∀ o : Option α, OptEquiv R o o
  | none => trivial
  | some a => hR a

theorem aggEquiv_refl (r : AggregateResult) : AggEquiv r r :=
  ⟨rfl, optEquiv_refl profileEquiv_refl _, optEquiv_refl lockEquiv_refl _,
   optEquiv_refl sysEquiv_refl _⟩

/-- `AggEquiv` from plain equality. -/
theorem aggEquiv_of_eq {r r' : AggregateResult} (h : r = r') : AggEquiv r r' :=
  h ▸ aggEquiv_refl r

theorem profileEquiv_trans {p q r : Profile} (h1 : ProfileEquiv p q)
    (h2 : ProfileEquiv q r) : ProfileEquiv p r :=
  ⟨h1.1.trans h2.1, h1.2.1.trans h2.2.1, h1.2.2.1.trans h2.2.2.1,
   h1.2.2.2.1.trans h2.2.2.2.1, fun s => (h1.2.2.2.2 s).trans (h2.2.2.2.2 s)⟩

theorem lockEquiv_trans {p q r : LockProfile} (h1 : LockEquiv p q)
    (h2 : LockEquiv q r) : LockEquiv p r :=
  ⟨h1.1.trans h2.1, h1.2.1.trans h2.2.1, h1.2.2.1.trans h2.2.2.1,
   fun k => (h1.2.2.2 k).trans (h2.2.2.2 k)⟩

theorem sysEquiv_trans {p q r : SyscallProfile} (h1 : SysEquiv p q)
    (h2 : SysEquiv q r) : SysEquiv p r :=
  ⟨h1.1.trans h2.1, h1.2.1.trans h2.2.1, h1.2.2.1.trans h2.2.2.1,
   fun i => (h1.2.2.2 i).trans (h2.2.2.2 i)⟩

theorem optEquiv_trans {α : Type} {R : α → α → Prop}
    (hR : ∀ a b c : α, R a b → R b c → R a c) :
    ∀ {o1 o2 o3 : Option α}, OptEquiv R o1 o2 → OptEquiv R o2 o3 → OptEquiv R o1 o3
  | none, none, none, _, _ => trivial
  | some a, some b, some c, h1, h2 => hR a b c h1 h2

theorem aggEquiv_trans {r1 r2 r3 : AggregateResult} (h1 : AggEquiv r1 r2)
    (h2 : AggEquiv r2 r3) : AggEquiv r1 r3 := by
  obtain ⟨t1, c1, l1, s1⟩ := h1
  obtain ⟨t2, c2, l2, s2⟩ := h2
  refine ⟨t1.trans t2, ?_, ?_, ?_⟩
  · exact optEquiv_trans (fun a b c (ha : ProfileEquiv a b) (hb : ProfileEquiv b c) => profileEquiv_trans ha hb) c1 c2
  · exact optEquiv_trans (fun a b c (ha : LockEquiv a b) (hb : LockEquiv b c) => lockEquiv_trans ha hb) l1 l2
  · exact optEquiv_trans (fun a b c (ha : SysEquiv a b) (hb : SysEquiv b c) => sysEquiv_trans ha hb) s1 s2

end Aperture

namespace Aperture

/-! ### Field characterizations of the per-event profile updates -/

/-- Start time `cpuUpd` starts from. -/
def optCpuStart (c : Option Profile) (ts : Nat) : Nat :=
  match c with | some p => p.start_time | none => ts

/-- End time `cpuUpd` starts from. -/
def optCpuEnd (c : Option Profile) (ts : Nat) : Nat :=
  match c with | some p => p.end_time | none => ts

/-- Sample count `cpuUpd` starts from. -/
def optCpuTotal (c : Option Profile) : Nat :=
  match c with | some p => p.total_samples | none => 0

/-- Sampling period `cpuUpd` starts from. -/
def optCpuPeriod (c : Option Profile) : Nat :=
  match c with | some p => p.sample_period_ns | none => 0

/-- Stack lookup in the profile `cpuUpd` starts from. -/
def optCpuLook (c : Option Profile) (x : Stack) : Option Nat :=
  match c with | some p => alookup p.samples x | none => none

theorem cpuUpd_start (c : Option Profile) (s : CpuSample) :
    (cpuUpd c s).start_time = min s.timestamp (optCpuStart c s.timestamp) := by
  cases c <;>
    simp only [cpuUpd, cpuBase, Profile.new, Profile.add_sample, optCpuStart] <;>
    split_ifs <;> simp <;> omega

theorem cpuUpd_end (c : Option Profile) (s : CpuSample) :
    (cpuUpd c s).end_time = max s.timestamp (optCpuEnd c s.timestamp) := by
  cases c <;>
    simp only [cpuUpd, cpuBase, Profile.new, Profile.add_sample, optCpuEnd] <;>
    split_ifs <;> simp <;> omega

theorem cpuUpd_total (c : Option Profile) (s : CpuSample) :
    (cpuUpd c s).total_samples =
      optCpuTotal c + (if (combinedIps s).isEmpty then 0 else 1) := by
  cases c <;>
    simp only [cpuUpd, cpuBase, Profile.new, Profile.add_sample, optCpuTotal] <;>
    split_ifs <;> simp

theorem cpuUpd_period (c : Option Profile) (s : CpuSample) :
    (cpuUpd c s).sample_period_ns = optCpuPeriod c := by
  cases c <;>
    simp only [cpuUpd, cpuBase, Profile.new, Profile.add_sample, optCpuPeriod] <;>
    split_ifs <;> simp

theorem cpuUpd_lookup (c : Option Profile) (s : CpuSample) (x : Stack) :
    alookup (cpuUpd c s).samples x =
      if (combinedIps s).isEmpty then optCpuLook c x
      else if x = cpuStack s then some ((optCpuLook c x).getD 0 + 1)
      else optCpuLook c x := by
  cases c <;>
    simp only [cpuUpd, cpuBase, Profile.new, Profile.add_sample, optCpuLook] <;>
    by_cases he : (combinedIps s).isEmpty <;>
    by_cases hx : x = cpuStack s <;>
    simp [he, hx, alookup_updateAssoc, alookup]

end Aperture

namespace Aperture

/-- Start time `lockUpd` starts from. -/
def optLockStart (c : Option LockProfile) (ts : Nat) : Nat :=
  match c with | some p => p.start_time | none => ts

/-- End time `lockUpd` starts from; `LockProfile::new` initializes `end_time` 0. -/
def optLockEnd (c : Option LockProfile) : Nat :=
  match c with | some p => p.end_time | none => 0

/-- Event count `lockUpd` starts from. -/
def optLockTotal (c : Option LockProfile) : Nat :=
  match c with | some p => p.total_events | none => 0

/-- Key lookup in the profile `lockUpd` starts from. -/
def optLockLook (c : Option LockProfile) (k : Nat × Stack) : Option LockContentionStats :=
  match c with | some p => alookup p.contentions k | none => none

theorem lockUpd_start (c : Option LockProfile) (ev : LockEvent) :
    (lockUpd c ev).start_time = min ev.timestamp (optLockStart c ev.timestamp) := by
  cases c <;>
    simp only [lockUpd, lockBase, LockProfile.new, LockProfile.add_contention,
      optLockStart] <;>
    split_ifs <;> simp <;> omega

theorem lockUpd_end (c : Option LockProfile) (ev : LockEvent) :
    (lockUpd c ev).end_time = max ev.timestamp (optLockEnd c) := by
  cases c <;>
    simp only [lockUpd, lockBase, LockProfile.new, LockProfile.add_contention,
      optLockEnd] <;>
    split_ifs <;> simp <;> omega

theorem lockUpd_total (c : Option LockProfile) (ev : LockEvent) :
    (lockUpd c ev).total_events =
      optLockTotal c + (if ev.stack_trace.isEmpty then 0 else 1) := by
  cases c <;>
    simp only [lockUpd, lockBase, LockProfile.new, LockProfile.add_contention,
      optLockTotal] <;>
    split_ifs <;> simp

theorem lockUpd_lookup (c : Option LockProfile) (ev : LockEvent) (k : Nat × Stack) :
    alookup (lockUpd c ev).contentions k =
      if ev.stack_trace.isEmpty then optLockLook c k
      else if k = (ev.lock_addr, lockStack ev) then
        some (LockContentionStats.record ev.wait_time_ns
          ((optLockLook c k).getD LockContentionStats.default))
      else optLockLook c k := by
  cases c <;>
    simp only [lockUpd, lockBase, LockProfile.new, LockProfile.add_contention,
      optLockLook] <;>
    by_cases he : ev.stack_trace.isEmpty <;>
    by_cases hk : k = (ev.lock_addr, lockStack ev) <;>
    simp [he, hk, alookup_updateAssoc, alookup]

end Aperture

namespace Aperture

/-- Start time `sysUpd` starts from. -/
def optSysStart (c : Option SyscallProfile) (ts : Nat) : Nat :=
  match c with | some p => p.start_time | none => ts

/-- End time `sysUpd` starts from; `SyscallProfile::new` initializes `end_time` 0. -/
def optSysEnd (c : Option SyscallProfile) : Nat :=
  match c with | some p => p.end_time | none => 0

/-- Event count `sysUpd` starts from. -/
def optSysTotal (c : Option SyscallProfile) : Nat :=
  match c with | some p => p.total_events | none => 0

/-- Id lookup in the profile `sysUpd` starts from. -/
def optSysLook (c : Option SyscallProfile) (i : Nat) : Option SyscallStats :=
  match c with | some p => alookup p.syscalls i | none => none

theorem sysUpd_start (c : Option SyscallProfile) (ev : SyscallEvent) :
    (sysUpd c ev).start_time = min ev.timestamp (optSysStart c ev.timestamp) := by
  cases c <;>
    simp only [sysUpd, sysBase, SyscallProfile.new, SyscallProfile.add_syscall,
      optSysStart] <;>
    split_ifs <;> simp <;> omega

theorem sysUpd_end (c : Option SyscallProfile) (ev : SyscallEvent) :
    (sysUpd c ev).end_time = max ev.timestamp (optSysEnd c) := by
  cases c <;>
    simp only [sysUpd, sysBase, SyscallProfile.new, SyscallProfile.add_syscall,
      optSysEnd] <;>
    split_ifs <;> simp <;> omega

theorem sysUpd_total (c : Option SyscallProfile) (ev : SyscallEvent) :
    (sysUpd c ev).total_events = optSysTotal c + 1 := by
  cases c <;>
    simp only [sysUpd, sysBase, SyscallProfile.new, SyscallProfile.add_syscall,
      optSysTotal]

theorem sysUpd_lookup (c : Option SyscallProfile) (ev : SyscallEvent) (i : Nat) :
    alookup (sysUpd c ev).syscalls i =
      if i = ev.syscall_id then
        some (SyscallStats.record ev.duration_ns ev.return_value
          ((optSysLook c i).getD
            (SyscallStats.new ev.syscall_id (syscall_name ev.syscall_id))))
      else optSysLook c i := by
  cases c <;>
    simp only [sysUpd, sysBase, SyscallProfile.new, SyscallProfile.add_syscall,
      optSysLook] <;>
    by_cases hi : i = ev.syscall_id <;>
    simp [hi, alookup_updateAssoc, alookup]

end Aperture

namespace Aperture

/-! ### Congruence and commutation of the per-event updates -/

theorem cpuUpd_congr {c d : Option Profile} (s : CpuSample)
    (h : OptEquiv ProfileEquiv c d) : ProfileEquiv (cpuUpd c s) (cpuUpd d s) := by
  cases c with
  | none =>
      cases d with
      | none => exact profileEquiv_refl _
      | some q => exact absurd h (by simp [OptEquiv])
  | some p =>
      cases d with
      | none => exact absurd h (by simp [OptEquiv])
      | some q =>
          obtain ⟨h1, h2, h3, h4, h5⟩ := h
          refine ⟨?_, ?_, ?_, ?_, ?_⟩
          · rw [cpuUpd_start, cpuUpd_start]; simp [optCpuStart, h1]
          · rw [cpuUpd_end, cpuUpd_end]; simp [optCpuEnd, h2]
          · rw [cpuUpd_total, cpuUpd_total]; simp [optCpuTotal, h3]
          · rw [cpuUpd_period, cpuUpd_period]; simp [optCpuPeriod, h4]
          · intro x
            rw [cpuUpd_lookup, cpuUpd_lookup]
            simp only [optCpuLook, h5]

theorem lockUpd_congr {c d : Option LockProfile} (ev : LockEvent)
    (h : OptEquiv LockEquiv c d) : LockEquiv (lockUpd c ev) (lockUpd d ev) := by
  cases c with
  | none =>
      cases d with
      | none => exact lockEquiv_refl _
      | some q => exact absurd h (by simp [OptEquiv])
  | some p =>
      cases d with
      | none => exact absurd h (by simp [OptEquiv])
      | some q =>
          obtain ⟨h1, h2, h3, h4⟩ := h
          refine ⟨?_, ?_, ?_, ?_⟩
          · rw [lockUpd_start, lockUpd_start]; simp [optLockStart, h1]
          · rw [lockUpd_end, lockUpd_end]; simp [optLockEnd, h2]
          · rw [lockUpd_total, lockUpd_total]; simp [optLockTotal, h3]
          · intro k
            rw [lockUpd_lookup, lockUpd_lookup]
            simp only [optLockLook, h4]

theorem sysUpd_congr {c d : Option SyscallProfile} (ev : SyscallEvent)
    (h : OptEquiv SysEquiv c d) : SysEquiv (sysUpd c ev) (sysUpd d ev) := by
  cases c with
  | none =>
      cases d with
      | none => exact sysEquiv_refl _
      | some q => exact absurd h (by simp [OptEquiv])
  | some p =>
      cases d with
      | none => exact absurd h (by simp [OptEquiv])
      | some q =>
          obtain ⟨h1, h2, h3, h4⟩ := h
          refine ⟨?_, ?_, ?_, ?_⟩
          · rw [sysUpd_start, sysUpd_start]; simp [optSysStart, h1]
          · rw [sysUpd_end, sysUpd_end]; simp [optSysEnd, h2]
          · rw [sysUpd_total, sysUpd_total]; simp [optSysTotal, h3]
          · intro i
            rw [sysUpd_lookup, sysUpd_lookup]
            simp only [optSysLook, h4]

theorem cpuUpd_swap (c : Option Profile) (a b : CpuSample) :
    ProfileEquiv (cpuUpd (some (cpuUpd c a)) b) (cpuUpd (some (cpuUpd c b)) a) := by
  refine ⟨?_, ?_, ?_, ?_, ?_⟩
  · rw [cpuUpd_start, cpuUpd_start]
    simp only [optCpuStart, cpuUpd_start]
    cases c <;> simp only [optCpuStart] <;> omega
  · rw [cpuUpd_end, cpuUpd_end]
    simp only [optCpuEnd, cpuUpd_end]
    cases c <;> simp only [optCpuEnd] <;> omega
  · rw [cpuUpd_total, cpuUpd_total]
    simp only [optCpuTotal, cpuUpd_total]
    omega
  · rw [cpuUpd_period, cpuUpd_period]
    simp only [optCpuPeriod, cpuUpd_period]
  · intro x
    rw [cpuUpd_lookup, cpuUpd_lookup]
    simp only [optCpuLook, cpuUpd_lookup]
    by_cases ea : (combinedIps a).isEmpty <;> by_cases eb : (combinedIps b).isEmpty
    · simp [ea, eb]
    · simp [ea, eb]
    · simp [ea, eb]
    · by_cases hxa : x = cpuStack a <;> by_cases hxb : x = cpuStack b
      · have hab : cpuStack a = cpuStack b := by rw [← hxa, ← hxb]
        simp [ea, eb, hxa, hxb, hab]
      · have hab : ¬ cpuStack a = cpuStack b := fun hh => hxb (hxa.trans hh)
        simp [ea, eb, hxa, hxb, hab, Ne.symm hab]
      · have hab : ¬ cpuStack b = cpuStack a := fun hh => hxa (hxb.trans hh)
        simp [ea, eb, hxa, hxb, hab, Ne.symm hab]
      · simp [ea, eb, hxa, hxb]

theorem lockStats_record_comm (w1 w2 : Nat) (s : LockContentionStats) :
    LockContentionStats.record w1 (LockContentionStats.record w2 s) =
    LockContentionStats.record w2 (LockContentionStats.record w1 s) := by
  simp only [LockContentionStats.record, LockContentionStats.mk.injEq]
  and_intros <;> first | trivial | omega

theorem getD_set_ne (l : List Nat) {i j : Nat} (v : Nat) (h : i ≠ j) :
    (l.set i v).getD j 0 = l.getD j 0 := by
  simp [List.getD_eq_getElem?_getD, List.getElem?_set_ne h]

theorem hist_bump_comm (h : List Nat) (b1 b2 : Nat) :
    (h.set b1 (h.getD b1 0 + 1)).set b2 ((h.set b1 (h.getD b1 0 + 1)).getD b2 0 + 1) =
    (h.set b2 (h.getD b2 0 + 1)).set b1 ((h.set b2 (h.getD b2 0 + 1)).getD b1 0 + 1) := by
  by_cases e : b1 = b2
  · subst e; rfl
  · rw [getD_set_ne _ _ e, getD_set_ne _ _ (Ne.symm e), List.set_comm _ _ _ e]

theorem sysStats_record_comm (d1 d2 : Nat) (r1 r2 : Int) (s : SyscallStats) :
    SyscallStats.record d1 r1 (SyscallStats.record d2 r2 s) =
    SyscallStats.record d2 r2 (SyscallStats.record d1 r1 s) := by
  simp only [SyscallStats.record, SyscallStats.mk.injEq]
  and_intros <;> first
    | trivial
    | omega
    | exact hist_bump_comm s.latency_histogram (latencyBucket d2) (latencyBucket d1)

theorem lockUpd_swap (c : Option LockProfile) (a b : LockEvent) :
    LockEquiv (lockUpd (some (lockUpd c a)) b) (lockUpd (some (lockUpd c b)) a) := by
  refine ⟨?_, ?_, ?_, ?_⟩
  · rw [lockUpd_start, lockUpd_start]
    simp only [optLockStart, lockUpd_start]
    cases c <;> simp only [optLockStart] <;> omega
  · rw [lockUpd_end, lockUpd_end]
    simp only [optLockEnd, lockUpd_end]
    cases c <;> simp only [optLockEnd] <;> omega
  · rw [lockUpd_total, lockUpd_total]
    simp only [optLockTotal, lockUpd_total]
    omega
  · intro k
    rw [lockUpd_lookup, lockUpd_lookup]
    simp only [optLockLook, lockUpd_lookup]
    by_cases ea : a.stack_trace.isEmpty <;> by_cases eb : b.stack_trace.isEmpty
    · simp [ea, eb]
    · simp [ea, eb]
    · simp [ea, eb]
    · by_cases hka : k = (a.lock_addr, lockStack a) <;>
        by_cases hkb : k = (b.lock_addr, lockStack b)
      · have hab : (a.lock_addr, lockStack a) = (b.lock_addr, lockStack b) := by
          rw [← hka, ← hkb]
        simp [ea, eb, hka, hkb, hab, lockStats_record_comm]
      · have hab : ¬ (a.lock_addr, lockStack a) = (b.lock_addr, lockStack b) :=
          fun hh => hkb (hka.trans hh)
        simp [ea, eb, hka, hkb, hab, Ne.symm hab]
      · have hab : ¬ (b.lock_addr, lockStack b) = (a.lock_addr, lockStack a) :=
          fun hh => hka (hkb.trans hh)
        simp [ea, eb, hka, hkb, hab, Ne.symm hab]
      · simp [ea, eb, hka, hkb]

theorem sysUpd_swap (c : Option SyscallProfile) (a b : SyscallEvent) :
    SysEquiv (sysUpd (some (sysUpd c a)) b) (sysUpd (some (sysUpd c b)) a) := by
  refine ⟨?_, ?_, ?_, ?_⟩
  · rw [sysUpd_start, sysUpd_start]
    simp only [optSysStart, sysUpd_start]
    cases c <;> simp only [optSysStart] <;> omega
  · rw [sysUpd_end, sysUpd_end]
    simp only [optSysEnd, sysUpd_end]
    cases c <;> simp only [optSysEnd] <;> omega
  · rw [sysUpd_total, sysUpd_total]
    simp only [optSysTotal, sysUpd_total]
  · intro i
    rw [sysUpd_lookup, sysUpd_lookup]
    simp only [optSysLook, sysUpd_lookup]
    by_cases hia : i = a.syscall_id <;> by_cases hib : i = b.syscall_id
    · have hab : a.syscall_id = b.syscall_id := by rw [← hia, ← hib]
      simp [hia, hib, hab, sysStats_record_comm]
    · have hab : ¬ a.syscall_id = b.syscall_id := fun hh => hib (hia.trans hh)
      simp [hia, hib, hab, Ne.symm hab]
    · have hab : ¬ b.syscall_id = a.syscall_id := fun hh => hia (hib.trans hh)
      simp [hia, hib, hab, Ne.symm hab]
    · simp [hia, hib]

end Aperture

namespace Aperture

/-- One event step preserves extensional equality of the aggregation state. -/
theorem stepEvent_congr {s t : AggregateResult} (e : ProfileEvent) (h : AggEquiv s t) :
    AggEquiv (stepEvent s e) (stepEvent t e) := by
  obtain ⟨ht, hc, hl, hs⟩ := h
  cases e with
  | cpuSample a =>
      exact ⟨by simp [stepEvent, ht], cpuUpd_congr a hc, hl, hs⟩
  | lock a =>
      exact ⟨by simp [stepEvent, ht], hc, lockUpd_congr a hl, hs⟩
  | syscall a =>
      exact ⟨by simp [stepEvent, ht], hc, hl, sysUpd_congr a hs⟩
  | gpuKernel a =>
      exact ⟨by simp [stepEvent, ht], hc, hl, hs⟩

/-- Two adjacent event steps commute up to extensional equality. -/
theorem stepEvent_swap (s : AggregateResult) (a b : ProfileEvent) :
    AggEquiv (stepEvent (stepEvent s a) b) (stepEvent (stepEvent s b) a) := by
  cases a with
  | cpuSample sa =>
      cases b with
      | cpuSample sb =>
          exact ⟨rfl, cpuUpd_swap s.cpu sa sb, optEquiv_refl lockEquiv_refl _,
                 optEquiv_refl sysEquiv_refl _⟩
      | lock lb => exact aggEquiv_of_eq rfl
      | syscall yb => exact aggEquiv_of_eq rfl
      | gpuKernel gb => exact aggEquiv_of_eq rfl
  | lock la =>
      cases b with
      | cpuSample sb => exact aggEquiv_of_eq rfl
      | lock lb =>
          exact ⟨rfl, optEquiv_refl profileEquiv_refl _, lockUpd_swap s.lock la lb,
                 optEquiv_refl sysEquiv_refl _⟩
      | syscall yb => exact aggEquiv_of_eq rfl
      | gpuKernel gb => exact aggEquiv_of_eq rfl
  | syscall ya =>
      cases b with
      | cpuSample sb => exact aggEquiv_of_eq rfl
      | lock lb => exact aggEquiv_of_eq rfl
      | syscall yb =>
          exact ⟨rfl, optEquiv_refl profileEquiv_refl _, optEquiv_refl lockEquiv_refl _,
                 sysUpd_swap s.syscall ya yb⟩
      | gpuKernel gb => exact aggEquiv_of_eq rfl
  | gpuKernel ga =>
      cases b with
      | cpuSample sb => exact aggEquiv_of_eq rfl
      | lock lb => exact aggEquiv_of_eq rfl
      | syscall yb => exact aggEquiv_of_eq rfl
      | gpuKernel gb => exact aggEquiv_of_eq rfl

/-- Folding the event loop preserves extensional equality of the start state. -/
theorem foldl_stepEvent_congr {s t : AggregateResult} (l : List ProfileEvent)
    (h : AggEquiv s t) : AggEquiv (l.foldl stepEvent s) (l.foldl stepEvent t) := by
  induction l generalizing s t with
  | nil => exact h
  | cons e rest ih => exact ih (stepEvent_congr e h)

/-- Folding the event loop over a permuted event list gives an extensionally
equal state. -/
theorem foldl_stepEvent_perm {l l' : List ProfileEvent} (h : l.Perm l')
    (s : AggregateResult) :
    AggEquiv (l.foldl stepEvent s) (l'.foldl stepEvent s) := by
  induction h generalizing s with
  | nil => exact aggEquiv_refl _
  | cons x hrest ih => simpa using ih (stepEvent s x)
  | swap x y l =>
      simp only [List.foldl_cons]
      exact foldl_stepEvent_congr l (stepEvent_swap s y x)
  | trans h1 h2 ih1 ih2 => exact aggEquiv_trans (ih1 s) (ih2 s)

/-- The events contributed by one payload (empty when it does not decode). -/
def evsOf (p : List Char) : List ProfileEvent :=
  match decodePayload p with
  | some m => m.events
  | none => []

/-- When every payload decodes, the loop is a fold of the concatenated events. -/
theorem aggLoop_ok (L : List (List Char)) (st : AggregateResult)
    (h : ∀ p ∈ L, (decodePayload p).isSome) :
    aggLoop st L = some (((L.map evsOf).flatten).foldl stepEvent st) := by
  induction L generalizing st with
  | nil => simp [aggLoop]
  | cons p rest ih =>
      obtain ⟨m, hm⟩ := Option.isSome_iff_exists.mp (h p (List.mem_cons_self _ _))
      simp only [aggLoop, hm, Option.bind_eq_bind, Option.some_bind]
      rw [ih _ fun q hq => h q (List.mem_cons_of_mem _ hq)]
      simp [evsOf, hm, List.foldl_append]

/-- A single undecodable payload anywhere in the list fails the whole loop. -/
theorem aggLoop_none (L : List (List Char)) (st : AggregateResult) (p0 : List Char)
    (hp0 : p0 ∈ L) (h : decodePayload p0 = none) : aggLoop st L = none := by
  induction L generalizing st with
  | nil => cases hp0
  | cons p rest ih =>
      rcases List.mem_cons.mp hp0 with rfl | hmem
      · simp [aggLoop, h]
      · cases hd : decodePayload p with
        | none => simp [aggLoop, hd]
        | some m =>
            simp only [aggLoop, hd, Option.bind_eq_bind, Option.some_bind]
            exact ih _ hmem

/-- C5: `aggregate_batches` is invariant under permutation of the payload list —
both runs fail together, or both succeed with extensionally equal results:
equal per-stack CPU sample counts, start/end times and totals, equal
per-`(lock_addr, stack)` contention statistics, equal per-syscall statistics and
latency histograms, and equal `total_events`. -/
theorem c5_aggregate_perm_invariant (L L' : List (List Char)) (h : L.Perm L') :
    OptEquiv AggEquiv (aggregate_batches L) (aggregate_batches L') := by
  by_cases hall : ∀ p ∈ L, (decodePayload p).isSome
  · have hall' : ∀ p ∈ L', (decodePayload p).isSome := fun p hp =>
      hall p (h.mem_iff.mpr hp)
    unfold aggregate_batches
    rw [aggLoop_ok L _ hall, aggLoop_ok L' _ hall']
    exact foldl_stepEvent_perm ((h.map evsOf).flatten) _
  · push_neg at hall
    obtain ⟨p0, hp0, hbad⟩ := hall
    have hbad' : decodePayload p0 = none := by
      cases hd : decodePayload p0 with
      | none => rfl
      | some m => rw [hd] at hbad; simp at hbad
    unfold aggregate_batches
    rw [aggLoop_none L _ p0 hp0 hbad', aggLoop_none L' _ p0 (h.mem_iff.mp hp0) hbad']
    trivial

/-- A payload with one syscall event. -/
def c5p1 : List Char :=
  b64Encode (Message.new 1 [.syscall
    { timestamp := 10, pid := 1, tid := 1, syscall_id := 0, duration_ns := 100,
      return_value := 0, comm := [] }]).to_bytes

/-- A payload with one CPU sample. -/
def c5p2 : List Char :=
  b64Encode (Message.new 2 [.cpuSample
    { timestamp := 20, pid := 1, tid := 1, cpu_id := 0, user_stack := [4096],
      kernel_stack := [], comm := [], user_stack_symbols := [],
      kernel_stack_symbols := [] }]).to_bytes

/-- C5 witness: the permutation hypothesis discharged at a concrete two-payload
swap. -/
theorem c5_aggregate_perm_invariant_witness :
    OptEquiv AggEquiv (aggregate_batches [c5p1, c5p2]) (aggregate_batches [c5p2, c5p1]) :=
  c5_aggregate_perm_invariant [c5p1, c5p2] [c5p2, c5p1] (List.Perm.swap c5p2 c5p1 [])

end Aperture

namespace Aperture

/-! ## Claim C7 — diff antisymmetry -/

/-- The key union is order-symmetric up to membership. -/
theorem keyUnion_mem_comm {κ σ : Type} [DecidableEq κ] (a b : List (κ × σ)) (k : κ) :
    k ∈ keyUnion a b ↔ k ∈ keyUnion b a := by
  simp [keyUnion, List.mem_dedup, List.mem_append, or_comm]

/-- Every entry of `diff_cpu a b` has a mirror entry in `diff_cpu b a` with the
same stack, negated delta, and swapped counts. -/
theorem diff_cpu_mem (cb cc : Profile) :
    ∀ e ∈ (diff_cpu cb cc).«stacks», ∃ e' ∈ (diff_cpu cc cb).«stacks»,
      e'.stack = e.stack ∧ e'.delta = -e.delta ∧
      e'.baseline_count = e.comparison_count ∧
      e'.comparison_count = e.baseline_count := by
  intro e he
  simp only [diff_cpu, List.mem_mergeSort] at he ⊢
  obtain ⟨k, hk, rfl⟩ := List.mem_map.mp he
  refine ⟨_, List.mem_map.mpr ⟨k, (keyUnion_mem_comm _ _ k).mp hk, rfl⟩,
          rfl, by ring, rfl, rfl⟩

/-- Every entry of `diff_syscall a b` has a mirror entry in `diff_syscall b a`
with the same id, negated `delta_count`, and swapped counts. -/
theorem diff_syscall_mem (sb sc : SyscallProfile) :
    ∀ e ∈ (diff_syscall sb sc).syscalls, ∃ e' ∈ (diff_syscall sc sb).syscalls,
      e'.syscall_id = e.syscall_id ∧ e'.delta_count = -e.delta_count ∧
      e'.baseline_count = e.comparison_count ∧
      e'.comparison_count = e.baseline_count := by
  intro e he
  simp only [diff_syscall, List.mem_mergeSort] at he ⊢
  obtain ⟨k, hk, rfl⟩ := List.mem_map.mp he
  refine ⟨_, List.mem_map.mpr ⟨k, (keyUnion_mem_comm _ _ k).mp hk, rfl⟩,
          rfl, by ring, rfl, rfl⟩

/-- Every entry of `diff_lock a b` has a mirror entry in `diff_lock b a` with
the same key, negated `delta_wait_ns`, and swapped counts. -/
theorem diff_lock_mem (lb lc : LockProfile) :
    ∀ e ∈ (diff_lock lb lc).contentions, ∃ e' ∈ (diff_lock lc lb).contentions,
      e'.lock_addr = e.lock_addr ∧ e'.stack = e.stack ∧
      e'.delta_wait_ns = -e.delta_wait_ns ∧
      e'.baseline_count = e.comparison_count ∧
      e'.comparison_count = e.baseline_count := by
  intro e he
  simp only [diff_lock, List.mem_mergeSort] at he ⊢
  obtain ⟨k, hk, rfl⟩ := List.mem_map.mp he
  refine ⟨_, List.mem_map.mpr ⟨k, (keyUnion_mem_comm _ _ k).mp hk, rfl⟩,
          rfl, rfl, by ring, rfl, rfl⟩

/-- C7: the diff engine is antisymmetric.  For each kind, swapping baseline and
comparison swaps the reported totals, and every key present in `diff(a,b)` is
present in `diff(b,a)` with its delta negated (per-stack `delta`, syscall
`delta_count`, lock `delta_wait_ns`) and its per-side counts swapped. -/
theorem c7_diff_antisymmetry (cb cc : Profile) (sb sc : SyscallProfile)
    (lb lc : LockProfile) :
    ((diff_cpu cc cb).baseline_total = (diff_cpu cb cc).comparison_total ∧
     (diff_cpu cc cb).comparison_total = (diff_cpu cb cc).baseline_total ∧
     ∀ e ∈ (diff_cpu cb cc).«stacks», ∃ e' ∈ (diff_cpu cc cb).«stacks»,
       e'.stack = e.stack ∧ e'.delta = -e.delta ∧
       e'.baseline_count = e.comparison_count ∧
       e'.comparison_count = e.baseline_count) ∧
    ((diff_syscall sc sb).baseline_total = (diff_syscall sb sc).comparison_total ∧
     (diff_syscall sc sb).comparison_total = (diff_syscall sb sc).baseline_total ∧
     ∀ e ∈ (diff_syscall sb sc).syscalls, ∃ e' ∈ (diff_syscall sc sb).syscalls,
       e'.syscall_id = e.syscall_id ∧ e'.delta_count = -e.delta_count ∧
       e'.baseline_count = e.comparison_count ∧
       e'.comparison_count = e.baseline_count) ∧
    ((diff_lock lc lb).baseline_total = (diff_lock lb lc).comparison_total ∧
     (diff_lock lc lb).comparison_total = (diff_lock lb lc).baseline_total ∧
     ∀ e ∈ (diff_lock lb lc).contentions, ∃ e' ∈ (diff_lock lc lb).contentions,
       e'.lock_addr = e.lock_addr ∧ e'.stack = e.stack ∧
       e'.delta_wait_ns = -e.delta_wait_ns ∧
       e'.baseline_count = e.comparison_count ∧
       e'.comparison_count = e.baseline_count) :=
  ⟨⟨rfl, rfl, diff_cpu_mem cb cc⟩,
   ⟨rfl, rfl, diff_syscall_mem sb sc⟩,
   ⟨rfl, rfl, diff_lock_mem lb lc⟩⟩

/-- A one-stack baseline CPU profile for the witness. -/
def c7cb : Profile :=
  (Profile.new 0 10 0).add_sample (Stack.from_ips [4096])

/-- A comparison CPU profile for the witness. -/
def c7cc : Profile :=
  ((Profile.new 0 10 0).add_sample (Stack.from_ips [4096])).add_sample
    (Stack.from_ips [8192])

/-- C7 witness: the membership hypothesis discharged for a concrete diff entry
(the mirror entry for the first entry of `diff_cpu c7cb c7cc`), plus concrete
syscall/lock instances. -/
theorem c7_diff_antisymmetry_witness :
    (∃ e ∈ (diff_cpu c7cb c7cc).«stacks»,
      ∃ e' ∈ (diff_cpu c7cc c7cb).«stacks»,
        e'.stack = e.stack ∧ e'.delta = -e.delta ∧
        e'.baseline_count = e.comparison_count ∧
        e'.comparison_count = e.baseline_count) ∧
    (diff_syscall (SyscallProfile.new 0) (SyscallProfile.new 1)).baseline_total =
      (diff_syscall (SyscallProfile.new 1) (SyscallProfile.new 0)).comparison_total := by
  constructor
  · have hk : Stack.from_ips [4096] ∈ keyUnion c7cb.samples c7cc.samples := by decide
    have hhead : ∃ e, e ∈ (diff_cpu c7cb c7cc).«stacks» := by
      simp only [diff_cpu, List.mem_mergeSort]
      exact ⟨_, List.mem_map.mpr ⟨_, hk, rfl⟩⟩
    obtain ⟨e, he⟩ := hhead
    exact ⟨e, he, (c7_diff_antisymmetry c7cb c7cc (SyscallProfile.new 0)
      (SyscallProfile.new 0) (LockProfile.new 0) (LockProfile.new 0)).1.2.2 e he⟩
  · exact (c7_diff_antisymmetry c7cb c7cc (SyscallProfile.new 1) (SyscallProfile.new 0)
      (LockProfile.new 0) (LockProfile.new 0)).2.1.1

end Aperture
